import Mathlib

/-!
Verification of the Tagged API client (`src/api-angular.js`): a shallow
embedding of the batching queue, flush scheduler, response demultiplexer,
TTL cache, parameter encoder and event hub, with theorems settling the
frozen claims about the natural-language specification.

JavaScript runtime values that can appear as call parameters are modelled
by `JsVal`.  Numbers are modelled as integers (the client never produces
non-integral numbers on the paths under study), objects as association
lists in property-insertion order (JS `for (var k in o)` order for string
keys), and functions as an opaque tag (only their `typeof` matters here).
-/

inductive JsVal where
  | vStr (s : String)
  | vNum (n : Int)
  | vBool (b : Bool)
  | vNull
  | vUndef
  | vArr (elems : List JsVal)
  | vObj (fields : List (String × JsVal))
  | vFunc (id : Nat)

namespace JsVal

/-- JavaScript truthiness of a value (`if (v)`). -/
def truthy : JsVal → Bool
  | .vStr s => s ≠ ""
  | .vNum n => n ≠ 0
  | .vBool b => b
  | .vNull => false
  | .vUndef => false
  | .vArr _ => true
  | .vObj _ => true
  | .vFunc _ => true

/-- JavaScript `typeof` operator. -/
def typeofJs : JsVal → String
  | .vStr _ => "string"
  | .vNum _ => "number"
  | .vBool _ => "boolean"
  | .vNull => "object"
  | .vUndef => "undefined"
  | .vArr _ => "object"
  | .vObj _ => "object"
  | .vFunc _ => "function"

end JsVal

/-- First binding of key `k` in a JS object's field list (`o[k]` when present). -/
def lookupJs (fields : List (String × JsVal)) (k : String) : Option JsVal :=
  match fields with
  | [] => none
  | (p, v) :: rest => if p = k then some v else lookupJs rest k

/-- JS property assignment on a plain object: update an existing binding in
place, otherwise append the new binding (insertion order preserved). -/
def setKey (fields : List (String × JsVal)) (k : String) (v : JsVal) :
    List (String × JsVal) :=
  if fields.any (fun kv => kv.1 = k) then
    fields.map (fun kv => if kv.1 = k then (k, v) else kv)
  else
    fields ++ [(k, v)]

/-- JS property read `o[k]`.  Reading on `null`/`undefined` throws (`none`);
reading a missing property on anything else yields `undefined`.  (Indexed
reads on arrays/strings are outside the modelled domain: the client only
reads string keys of plain objects on the paths under study.) -/
def getProp : JsVal → String → Option JsVal
  | .vObj fields, k => some ((lookupJs fields k).getD .vUndef)
  | .vNull, _ => none
  | .vUndef, _ => none
  | _, _ => some (.vUndef)

/-- JS property write `o[k] = v` under `'use strict'`.  Writing on
`null`/`undefined` or on a primitive throws (`none`).  Writing an expando
property on an array or function succeeds but is invisible to every later
read the client performs (the encoder only looks at array indices), so the
value is left unchanged. -/
def setProp : JsVal → String → JsVal → Option JsVal
  | .vObj fields, k, v => some (.vObj (setKey fields k v))
  | .vArr xs, _, _ => some (.vArr xs)
  | .vFunc i, _, _ => some (.vFunc i)
  | _, _, _ => none

/-- JS test `v.constructor === Object`: `none` models the throw on
`null`/`undefined`; otherwise true exactly for plain objects. -/
def constructorIsObject : JsVal → Option Bool
  | .vNull => none
  | .vUndef => none
  | .vObj _ => some true
  | _ => some false

/-!
`mergeRecursive(obj1, obj2)` from `src/api-angular.js` lines 402-422.
The JS function iterates the own keys of `obj2`; for each key `p` it tries
`if (obj2[p].constructor === Object) obj1[p] = mergeRecursive(obj1[p], obj2[p])
else obj1[p] = obj2[p]` and on any exception falls back to `obj1[p] = obj2[p]`
inside the `catch`; an exception thrown by the `catch` assignment itself
propagates out of the call.  `Except Unit` models that propagated throw.
`for (var p in obj2)` iterates nothing when `obj2` has no own enumerable
string-keyed properties; the client only ever passes plain objects (or
looked-up sub-values) as `obj2`, so iteration is modelled for `vObj` only.
-/

mutual

def mergeRecursive : JsVal → JsVal → Except Unit JsVal
  | o1, .vObj fields => mergeFields o1 fields
  | o1, _ => .ok o1

def mergeFields : JsVal → List (String × JsVal) → Except Unit JsVal
  | o1, [] => .ok o1
  | o1, (p, v2) :: rest =>
    let attempt : Except Unit JsVal :=
      match constructorIsObject v2 with
      | none => .error ()
      | some isObj =>
        if isObj then
          match getProp o1 p with
          | none => .error ()
          | some sub =>
            match mergeRecursive sub v2 with
            | .error _ => .error ()
            | .ok merged =>
              match setProp o1 p merged with
              | none => .error ()
              | some o1' => .ok o1'
        else
          match setProp o1 p v2 with
          | none => .error ()
          | some o1' => .ok o1'
    match attempt with
    | .ok o1' => mergeFields o1' rest
    | .error _ =>
      match setProp o1 p v2 with
      | none => .error ()
      | some o1' => mergeFields o1' rest

end

example : mergeRecursive (.vObj [("a", .vNum 1)]) (.vObj [("a", .vNum 2), ("b", .vStr "x")]) =
    .ok (.vObj [("a", .vNum 2), ("b", .vStr "x")]) := rfl

example : mergeRecursive (.vObj []) (.vObj [("k", .vObj [("a", .vNum 1)])]) =
    .ok (.vObj [("k", .vObj [("a", .vNum 1)])]) := rfl

example : mergeRecursive (.vObj []) (.vObj [("k", .vObj [])]) =
    .ok (.vObj [("k", .vUndef)]) := rfl

/-!
String coercion and the platform builtins the client calls.  These model
the ECMAScript builtins (`String(v)`, `encodeURIComponent`,
`JSON.stringify`), which are not part of the repository's source.
-/

mutual

/-- Model of ECMAScript `String(v)` coercion for the modelled values.
Arrays stringify as their elements joined by `,` with `null`/`undefined`
elements contributing an empty string; plain objects as `[object Object]`. -/
def jsToString : JsVal → String
  | .vStr s => s
  | .vNum n => toString n
  | .vBool true => "true"
  | .vBool false => "false"
  | .vNull => "null"
  | .vUndef => "undefined"
  | .vArr elems => arrayJoinComma elems
  | .vObj _ => "[object Object]"
  | .vFunc _ => "function"

/-- `Array.prototype.join(",")` used by array-to-string coercion. -/
def arrayJoinComma : List JsVal → String
  | [] => ""
  | [x] =>
    (match x with
     | .vNull => ""
     | .vUndef => ""
     | v => jsToString v)
  | x :: rest =>
    (match x with
     | .vNull => ""
     | .vUndef => ""
     | v => jsToString v) ++ "," ++ arrayJoinComma rest

end

/-- Uppercase hexadecimal digit, for percent-escapes. -/
def hexDigitUpper (n : Nat) : Char :=
  if n < 10 then Char.ofNat (48 + n) else Char.ofNat (55 + n)

/-- Lowercase hexadecimal digit, for JSON `\u` escapes. -/
def hexDigitLower (n : Nat) : Char :=
  if n < 10 then Char.ofNat (48 + n) else Char.ofNat (87 + n)

/-- UTF-8 encoding of a character, as byte values. -/
def utf8Bytes (c : Char) : List Nat :=
  let n := c.toNat
  if n < 128 then [n]
  else if n < 2048 then [192 + n / 64, 128 + n % 64]
  else if n < 65536 then [224 + n / 4096, 128 + (n / 64) % 64, 128 + n % 64]
  else [240 + n / 262144, 128 + (n / 4096) % 64, 128 + (n / 64) % 64, 128 + n % 64]

/-- Characters `encodeURIComponent` leaves unescaped: alphanumerics and
`- _ . ! ~ * ( )` and the apostrophe (code 39). -/
def isUnreservedUriChar (c : Char) : Bool :=
  ('A' ≤ c && c ≤ 'Z') || ('a' ≤ c && c ≤ 'z') || ('0' ≤ c && c ≤ '9') ||
  c == '-' || c == '_' || c == '.' || c == '!' || c == '~' || c == '*' ||
  c == Char.ofNat 39 || c == '(' || c == ')'

/-- Percent-escape of a single character (UTF-8 bytes, uppercase hex). -/
def percentEncodeChar (c : Char) : String :=
  if isUnreservedUriChar c then String.singleton c
  else
    String.join ((utf8Bytes c).map (fun b =>
      "%" ++ String.singleton (hexDigitUpper (b / 16)) ++
        String.singleton (hexDigitUpper (b % 16))))

/-- Model of the ECMAScript builtin `encodeURIComponent`. -/
def encodeURIComponent (s : String) : String :=
  String.join (s.toList.map percentEncodeChar)

/-- JSON escape of a single character inside a string literal. -/
def jsonEscapeChar (c : Char) : String :=
  if c = Char.ofNat 34 then "\\\""
  else if c = Char.ofNat 92 then "\\\\"
  else if c = Char.ofNat 10 then "\\n"
  else if c = Char.ofNat 13 then "\\r"
  else if c = Char.ofNat 9 then "\\t"
  else if c.toNat < 32 then
    "\\u00" ++ String.singleton (hexDigitLower ((c.toNat / 16) % 16)) ++
      String.singleton (hexDigitLower (c.toNat % 16))
  else String.singleton c

/-- JSON string literal for `s`. -/
def jsonQuote (s : String) : String :=
  "\"" ++ String.join (s.toList.map jsonEscapeChar) ++ "\""

mutual

/-- Model of the ECMAScript builtin `JSON.stringify`: `none` when the value
is not JSON-serializable at top level (`undefined` and functions), in which
case the JS builtin returns `undefined`. -/
def jsonStringify : JsVal → Option String
  | .vStr s => some (jsonQuote s)
  | .vNum n => some (toString n)
  | .vBool true => some "true"
  | .vBool false => some "false"
  | .vNull => some "null"
  | .vUndef => none
  | .vFunc _ => none
  | .vArr elems => some ("[" ++ String.intercalate "," (jsonStringifyElems elems) ++ "]")
  | .vObj fields => some ("\x7b" ++ String.intercalate "," (jsonStringifyFields fields) ++ "\x7d")

/-- Array elements: unserializable elements become `null`. -/
def jsonStringifyElems : List JsVal → List String
  | [] => []
  | v :: rest => ((jsonStringify v).getD "null") :: jsonStringifyElems rest

/-- Object fields: unserializable values are skipped. -/
def jsonStringifyFields : List (String × JsVal) → List String
  | [] => []
  | (k, v) :: rest =>
    match jsonStringify v with
    | none => jsonStringifyFields rest
    | some s => (jsonQuote k ++ ":" ++ s) :: jsonStringifyFields rest

end

/-- Whether a value is JavaScript `null`. -/
def JsVal.isNull : JsVal → Bool
  | .vNull => true
  | _ => false

/-!
The parameter encoder, `src/api-angular.js` lines 353-398, and the queue
serializer, lines 295-328.
-/

/-- `parameterizePrimitive(key, value)` (lines 376-381): both sides
percent-encoded, the value after string coercion. -/
def parameterizePrimitive (key : String) (value : JsVal) : String :=
  encodeURIComponent key ++ "=" ++ encodeURIComponent (jsToString value)

/-- `parameterizeObject(key, value)` (lines 383-398): arrays become repeated
`key[]=elem` pairs, other objects `key[subkey]=value` pairs, joined by `&`.
Only called with array/object values; anything else has no own enumerable
properties and yields the empty join. -/
def parameterizeObject (key : String) (value : JsVal) : String :=
  match value with
  | .vArr elems =>
    String.intercalate "&" (elems.map (fun v =>
      encodeURIComponent key ++ "[]=" ++ encodeURIComponent (jsToString v)))
  | .vObj fields =>
    String.intercalate "&" (fields.map (fun kv =>
      encodeURIComponent key ++ "[" ++ encodeURIComponent kv.1 ++ "]=" ++
        encodeURIComponent (jsToString kv.2)))
  | _ => ""

/-- `parameterize(key, value)` (lines 353-374): a `switch` on
`typeof value`; strings, numbers and booleans encode as primitives,
`undefined` as an empty-string value, `null` (whose `typeof` is `object`)
through the primitive encoder, arrays/objects through the object encoder,
and every other kind throws. -/
def parameterize (key : String) (value : JsVal) : Except String String :=
  match value with
  | .vStr _ | .vNum _ | .vBool _ => .ok (parameterizePrimitive key value)
  | .vUndef => .ok (parameterizePrimitive key (.vStr ""))
  | .vNull => .ok (parameterizePrimitive key .vNull)
  | .vArr _ | .vObj _ => .ok (parameterizeObject key value)
  | .vFunc _ =>
    .error ("Unable to parameterize key " ++ key ++ " with type function")

/-- One queued API call as serialized: method name plus merged params. -/
structure QueuedCall where
  method : String
  params : List (String × JsVal)

/-- Sequential map over a list where each element may throw: stops at the
first error (a JS loop aborted by an exception). -/
def mapExcept {α β γ : Type} (f : α → Except γ β) : List α → Except γ (List β)
  | [] => .ok []
  | a :: rest =>
    match f a with
    | .error e => .error e
    | .ok b => (mapExcept f rest).map (fun bs => b :: bs)

/-- The `params` array built by `stringifyCall` (lines 308-328) before the
final `join('&')`: the `method=` token followed by one entry per
non-`null` parameter (`null`-valued parameters are omitted, per the
source's comment "Passing null as a value is not supported by the API"). -/
def stringifyCallParts (call : QueuedCall) : Except String (List String) :=
  (mapExcept (fun kv => parameterize kv.1 kv.2)
      (call.params.filter (fun kv => !kv.2.isNull))).map
    (fun rest => ("method=" ++ encodeURIComponent call.method) :: rest)

/-- `stringifyCall(call)`: the parts joined by `&`. -/
def stringifyCall (call : QueuedCall) : Except String String :=
  (stringifyCallParts call).map (String.intercalate "&")

/-- `stringifyQueue(queue)` (lines 295-306): each call's line joined by a
newline, the whole payload framed by a leading and trailing newline. -/
def stringifyQueue (queue : List QueuedCall) : Except String String :=
  (mapExcept stringifyCall queue).map
    (fun calls => "\n" ++ String.intercalate "\n" calls ++ "\n")

example : stringifyCall ⟨"m", [("a", .vNum 1)]⟩ = .ok "method=m&a=1" := rfl

example : stringifyCall ⟨"m", [("a", .vNull)]⟩ = .ok "method=m" := rfl

example : stringifyCall ⟨"m", [("a", .vUndef)]⟩ = .ok "method=m&a=" := rfl

example : stringifyCall ⟨"m", [("a", .vObj [("b", .vStr "x y")])]⟩ =
    .ok "method=m&a[b]=x%20y" := rfl

example : stringifyQueue [⟨"m", []⟩, ⟨"n", [("a", .vArr [.vNum 1, .vNum 2])]⟩] =
    .ok "\nmethod=m\nmethod=n&a[]=1&a[]=2\n" := rfl

example : encodeURIComponent "a b/c" = "a%20b%2Fc" := rfl

/-!
The client instance state relevant to `execute` (`src/api-angular.js`
lines 99-161): the instance-level fixed params (`this._options.params`),
the batch queue, the TTL response cache keyed by `method + ':' +
JSON.stringify(params)`, and a counter allocating identities for the
promises `execute` creates (distinct `new Promise(...)` objects).
Wall-clock time (`new Date().getTime()`) and the `Math.random()` draw that
gates the opportunistic cache sweep are inputs of each call.
-/

/-- Generic association-list lookup (JS object/dictionary read). -/
def lookupAssoc {α : Type} (l : List (String × α)) (k : String) : Option α :=
  match l with
  | [] => none
  | (p, v) :: rest => if p = k then some v else lookupAssoc rest k

/-- Generic association-list assignment (JS object/dictionary write). -/
def setAssoc {α : Type} (l : List (String × α)) (k : String) (v : α) :
    List (String × α) :=
  if l.any (fun kv => kv.1 = k) then
    l.map (fun kv => if kv.1 = k then (k, v) else kv)
  else
    l ++ [(k, v)]

/-- Generic association-list deletion (JS `delete o[k]`). -/
def eraseAssoc {α : Type} (l : List (String × α)) (k : String) :
    List (String × α) :=
  l.filter (fun kv => !(kv.1 == k))

/-- Cache entry expiry: a finite instant in milliseconds, or `Infinity`
(stored when `config.cache === true`). -/
inductive Expiry where
  | finite (t : Int)
  | infinity

/-- The lookup-time liveness test `cache.expires > now`. -/
def Expiry.isLive : Expiry → Int → Bool
  | .finite t, now => now < t
  | .infinity, _ => true

/-- The sweep's staleness test `this._cache[cacheEntry].expires < now`. -/
def Expiry.sweepStale : Expiry → Int → Bool
  | .finite t, now => t < now
  | .infinity, _ => false

/-- A stored cache value: the literal object `{expires: ..., promise: ...}`
built at `src/api-angular.js` lines 154-157. -/
structure CacheEntry where
  expires : Expiry
  promise : Nat

/-- One queue element pushed by `execute` (lines 136-141): method, merged
params (the exact `mergeRecursive` result), and the created promise's
identity.  The enqueue timestamp is observability-only and not modelled. -/
structure QueuedRecord where
  method : String
  params : JsVal
  handle : Nat

/-- `for (var key in call.params)` enumeration used by `stringifyCall`:
own enumerable string-keyed properties; nothing for non-objects. -/
def paramFields : JsVal → List (String × JsVal)
  | .vObj fields => fields
  | _ => []

/-- View of a queued record as the serializer's input. -/
def QueuedRecord.toCall (r : QueuedRecord) : QueuedCall :=
  ⟨r.method, paramFields r.params⟩

structure ApiState where
  optionsParams : List (String × JsVal)
  queue : List QueuedRecord
  cache : List (String × CacheEntry)
  nextHandle : Nat

/-- The caller's cache directive: `config.cache` is either the literal
`true` (cache forever) or a number of seconds. -/
inductive CacheDirective where
  | forever
  | seconds (n : Int)

/-- Truthiness of `config && config.cache`: absent config or `cache: 0`
disables caching. -/
def cacheDirectiveTruthy : Option CacheDirective → Bool
  | some .forever => true
  | some (.seconds n) => n ≠ 0
  | none => false

/-- `expires` computed at store time (line 153): `Infinity` for
`cache === true`, else `now + config.cache * 1000`. -/
def expiryOf : CacheDirective → Int → Expiry
  | .forever, _ => .infinity
  | .seconds n, now => .finite (now + n * 1000)

/-- The cache signature `method + ':' + JSON.stringify(params)` (line 119);
string concatenation coerces an unserializable `params` to `"undefined"`. -/
def cacheKeyOf (m : String) (params : JsVal) : String :=
  m ++ ":" ++ ((jsonStringify params).getD "undefined")

/-- Validation at the top of `execute` (lines 100-102):
`!method || typeof method !== "string"` — accepts exactly non-empty
strings, returning the method string. -/
def methodString : JsVal → Option String
  | .vStr s => if s = "" then none else some s
  | _ => none

/-- What a call to `execute` returns: a synchronous throw, the promise it
created (identified by its handle), or — on a live cache hit — the stored
cache entry object itself (`return this._cache[cacheKey]`, line 126). -/
inductive ExecOutcome where
  | threw (msg : String)
  | handle (id : Nat)
  | entry (e : CacheEntry)

/-- The enqueue-and-store tail of `execute` (lines 133-160): create the
promise, merge `{}` with the instance params and then with `params || {}`,
push the record, and store a cache entry when a cache key was computed.
A throw inside the promise executor (none is reachable here, since the
merge base is a plain object) rejects the created promise without
enqueueing; `execute` still stores and returns the promise. -/
def enqueueAndStore (st : ApiState) (m : String) (params : JsVal)
    (keyDir : Option (String × CacheDirective)) (now : Int) :
    ExecOutcome × ApiState :=
  let h := st.nextHandle
  let callParams := if params.truthy then params else .vObj []
  let mergedE : Except Unit JsVal := do
    let base ← mergeRecursive (.vObj []) (.vObj st.optionsParams)
    mergeRecursive base callParams
  let st2 :=
    match mergedE with
    | .ok mv => { st with queue := st.queue ++ [⟨m, mv, h⟩], nextHandle := h + 1 }
    | .error _ => { st with nextHandle := h + 1 }
  let st3 :=
    match keyDir with
    | some (k, d) =>
      { st2 with cache := setAssoc st2.cache k ⟨expiryOf d now, h⟩ }
    | none => st2
  (.handle h, st3)

/-- `TaggedApi.prototype.execute` (lines 99-161).  `sweep` is the outcome
of the `Math.random() > 0.99` draw gating the opportunistic eviction scan;
`now` is `new Date().getTime()`. -/
def execute (st : ApiState) (method : JsVal) (params : JsVal)
    (config : Option CacheDirective) (now : Int) (sweep : Bool) :
    ExecOutcome × ApiState :=
  match methodString method with
  | none => (.threw "Method is required to execute API calls", st)
  | some m =>
    let st1 :=
      if sweep then
        { st with cache := st.cache.filter (fun kv => !(kv.2.expires.sweepStale now)) }
      else st
    let keyDir : Option (String × CacheDirective) :=
      if cacheDirectiveTruthy config then
        config.map (fun d => (cacheKeyOf m params, d))
      else none
    match keyDir with
    | some (k, d) =>
      match lookupAssoc st1.cache k with
      | some ce =>
        if ce.expires.isLive now then (.entry ce, st1)
        else enqueueAndStore { st1 with cache := eraseAssoc st1.cache k } m params (some (k, d)) now
      | none => enqueueAndStore st1 m params (some (k, d)) now
    | none => enqueueAndStore st1 m params none now

/-- Initial per-instance state with given fixed params. -/
def ApiState.init (optionsParams : List (String × JsVal)) : ApiState :=
  ⟨optionsParams, [], [], 0⟩

example :
    execute (ApiState.init []) (.vStr "m") (.vObj [("a", .vNum 1)])
      (some (.seconds 60)) 0 false =
    (.handle 0,
     ⟨[], [⟨"m", .vObj [("a", .vNum 1)], 0⟩],
      [("m:\x7b\"a\":1\x7d", ⟨.finite 60000, 0⟩)], 1⟩) := rfl

example :
    (execute
      ⟨[], [⟨"m", .vObj [("a", .vNum 1)], 0⟩],
       [("m:\x7b\"a\":1\x7d", ⟨.finite 60000, 0⟩)], 1⟩
      (.vStr "m") (.vObj [("a", .vNum 1)]) (some (.seconds 60)) 5000 false).1 =
    .entry ⟨.finite 60000, 0⟩ := rfl

/-!
Response demultiplexing (`resolveQueue`, lines 212-235), batch-wide
rejection (`rejectQueue`, lines 239-245), response parsing
(`parseResponseBody`, lines 197-207) and the event hub (`on`, lines
256-261).  A subscriber callback is external input: it is modelled by
whether it returns normally or throws a given value.  A record's promise
settles once; the first `resolve`/`reject` wins, so settlements are
recorded in order and a later `rejectQueue` over the same batch only
affects records that have not settled yet.
-/

inductive Settlement where
  | resolved (r : JsVal)
  | rejected (e : JsVal)

/-- An event-hub callback, modelled by its observable effect. -/
structure Subscriber where
  throws : Option JsVal

/-- `TaggedApi.prototype.on(stat, callback)` (lines 256-261). -/
def onEvent (events : List (String × List Subscriber)) (stat : String)
    (cb : Subscriber) : List (String × List Subscriber) :=
  match lookupAssoc events stat with
  | none => setAssoc events stat [cb]
  | some subs => setAssoc events stat (subs ++ [cb])

/-- Loose-equality test `result == null` of line 216 (`null` or
`undefined`; an out-of-range read yields `undefined`). -/
def JsVal.isNullish : JsVal → Bool
  | .vNull => true
  | .vUndef => true
  | _ => false

/-- The synthesized default `{result: null, stat: 'ok'}` (lines 217-220). -/
def defaultResult : JsVal :=
  .vObj [("result", .vNull), ("stat", .vStr "ok")]

/-- `result.stat` (property read on the effective result object). -/
def statRead (r : JsVal) : JsVal :=
  (getProp r "stat").getD (.vUndef)

/-- Strict equality with the success tag: `result.stat !== 'ok'` is the
negation of this. -/
def isStrOk : JsVal → Bool
  | .vStr s => s = "ok"
  | _ => false

/-- The result object record `i` settles with: the parsed entry at index
`i`, or the synthesized default when that entry is `null`/`undefined` or
the response is too short (lines 214-221). -/
def effectiveResult (results : List JsVal) (i : Nat) : JsVal :=
  let r0 := results.getD i (.vUndef)
  if r0.isNullish then defaultResult else r0

/-- The settle decision of lines 227-231: reject with the full result
object when `result.stat` is truthy and not `'ok'`, else resolve with it. -/
def demuxSettle (r : JsVal) : Settlement :=
  if (statRead r).truthy && !(isStrOk (statRead r)) then .rejected r
  else .resolved r

/-- Observable demultiplexing trace: subscriber invocations and handle
settlements, in execution order. -/
inductive TraceEv where
  | invoke (recIdx : Nat) (tag : String) (subIdx : Nat)
  | settle (recIdx : Nat) (s : Settlement)

/-- Run the subscribers registered for one tag, in registration order
(`for (var b in this._events[result.stat])`, lines 223-225), stopping at
the first throw. -/
def runSubs (i : Nat) (tag : String) (subs : List Subscriber) (b : Nat) :
    List TraceEv × Option JsVal :=
  match subs with
  | [] => ([], none)
  | s :: rest =>
    match s.throws with
    | some e => ([.invoke i tag b], some e)
    | none =>
      let (tr, err) := runSubs i tag rest (b + 1)
      (.invoke i tag b :: tr, err)

/-- The loop body of `resolveQueue` from record `i` on: effective result
(entry `i`, or the default when the entry `== null`), event-hub
notification when `result.stat` is truthy and registered, then settle.
Returns the trace, the settlements made, and the value thrown by a failing
subscriber, which aborts the loop (no `try`/`catch` around it). -/
def resolveQueueGo (events : List (String × List Subscriber))
    (results : List JsVal) :
    Nat → List QueuedRecord → List TraceEv × List Settlement × Option JsVal
  | _, [] => ([], [], none)
  | i, _ :: rest =>
    let r := effectiveResult results i
    let s := statRead r
    let tag := jsToString s
    let (tr1, err) :=
      if s.truthy then
        match lookupAssoc events tag with
        | some subs => runSubs i tag subs 0
        | none => ([], none)
      else ([], none)
    match err with
    | some e => (tr1, [], some e)
    | none =>
      let st := demuxSettle r
      let (tr2, sts, err2) := resolveQueueGo events results (i + 1) rest
      (tr1 ++ .settle i st :: tr2, st :: sts, err2)

/-- Final settlement of every record of a batch once `resolveQueue` has
run under the promise chain's `.catch(rejectQueue...)`: a value thrown by
a subscriber is caught and `rejectQueue` rejects the whole batch with it —
records that already settled keep their settlement (a promise settles
once), the rest are rejected with the thrown value. -/
def settleBatch (events : List (String × List Subscriber))
    (queue : List QueuedRecord) (results : List JsVal) : List Settlement :=
  let (_, sts, err) := resolveQueueGo events results 0 queue
  match err with
  | none => sts
  | some e => sts ++ (queue.drop sts.length).map (fun _ => .rejected e)

/-- The demultiplexing trace of a batch. -/
def batchTrace (events : List (String × List Subscriber))
    (queue : List QueuedRecord) (results : List JsVal) : List TraceEv :=
  (resolveQueueGo events results 0 queue).1

/-- `parseResponseBody(response)` (lines 197-207): `JSON.parse` the body,
then `JSON.parse` each enumerated element.  `JSON.parse` is a platform
builtin, so it is a parameter `parse`; a parse throw is an `error` that
aborts the whole computation (exceptions bubble up).  `for (var i in
responses)` enumerates array elements, object property values, or string
characters, and nothing for other primitives. -/
def parseResponseBody (parse : String → Except JsVal JsVal) (body : String) :
    Except JsVal (List JsVal) := do
  let responses ← parse body
  match responses with
  | .vArr elems => mapExcept (fun el => parse (jsToString el)) elems
  | .vObj fields => mapExcept (fun kv => parse (jsToString kv.2)) fields
  | .vStr s => mapExcept (fun c => parse (String.singleton c)) s.toList
  | _ => pure []

/-- The promise chain of `_postToApi` (lines 179-190) from the transport
exchange on: `post → parseResponseBody → resolveQueue`, with a single
`.catch(rejectQueue.bind(this, this._queue))` that rejects every record of
the in-flight batch with whatever failure reached it. -/
def postPipeline (events : List (String × List Subscriber))
    (queue : List QueuedRecord) (transport : Except JsVal String)
    (parse : String → Except JsVal JsVal) : List Settlement :=
  match (do
    let resp ← transport
    parseResponseBody parse resp : Except JsVal (List JsVal)) with
  | .error e => queue.map (fun _ => .rejected e)
  | .ok results => settleBatch events queue results

/-- The synchronous start of `_postToApi` (lines 163-193):
`stringifyQueue` runs before `this._http.post`, so a serialization throw
escapes `_postToApi` before any network activity — the transport is never
invoked and the queue is not even reset. -/
inductive FlushOutcome where
  | serializationThrew (msg : String)
  | posted (body : String)

/-- Whether a flush of `queue` reaches the transport, and with what body. -/
def flushAttempt (queue : List QueuedRecord) : FlushOutcome :=
  match stringifyQueue (queue.map QueuedRecord.toCall) with
  | .error msg => .serializationThrew msg
  | .ok body => .posted body

/-!
The flush scheduler (`execute` lines 143-148, `resetQueue` lines 248-254)
as a transition system.  Scheduling depends on the queue only through its
length, so the state projects the queue to `queueLen`.  `pendingTimers`
models the host environment's set of live timers created by `setTimeout`
and not yet fired or cancelled, identified by creation order;
`batchTimeout` is the instance field `this._batchTimeout`.
-/

structure SchedState where
  queueLen : Nat
  batchTimeout : Option Nat
  pendingTimers : List Nat
  nextTimerId : Nat
  maxQueueSize : Option Nat

/-- Truthiness of `this._maxQueueSize` (line 143): `null` and `0` are
falsy, i.e. no size-triggered flush. -/
def maxTruthy : Option Nat → Bool
  | some m => m ≠ 0
  | none => false

/-- `TaggedApi.prototype.resetQueue` (lines 248-254): cancel the pending
timer, if any, and empty the queue. -/
def SchedState.resetQueue (s : SchedState) : SchedState :=
  let pend :=
    match s.batchTimeout with
    | some id => s.pendingTimers.filter (fun t => !(t == id))
    | none => s.pendingTimers
  { s with queueLen := 0, batchTimeout := none, pendingTimers := pend }

/-- The scheduling effect of `_postToApi` (line 192): the flush hands the
queue to the dispatcher and resets it. -/
def SchedState.postToApi (s : SchedState) : SchedState :=
  s.resetQueue

/-- `setTimeout(this._postToApi.bind(this), 1)` when no timer is pending
(lines 146-148). -/
def SchedState.scheduleIfNone (s : SchedState) : SchedState :=
  match s.batchTimeout with
  | none =>
    { s with batchTimeout := some s.nextTimerId,
             pendingTimers := s.pendingTimers ++ [s.nextTimerId],
             nextTimerId := s.nextTimerId + 1 }
  | some _ => s

/-- The scheduling effect of one `execute` enqueue (lines 136-148): append
to the queue, then flush synchronously if the configured max size is
reached, else defer via at most one timer. -/
def SchedState.enqueue (s : SchedState) : SchedState :=
  let s1 := { s with queueLen := s.queueLen + 1 }
  match s1.maxQueueSize with
  | some m => if m ≠ 0 ∧ s1.queueLen ≥ m then s1.postToApi else s1.scheduleIfNone
  | none => s1.scheduleIfNone

/-- The environment fires a pending timer: it is no longer pending, and
its callback `_postToApi` runs. -/
def SchedState.fireTimer (s : SchedState) (id : Nat) : SchedState :=
  ({ s with pendingTimers := s.pendingTimers.filter (fun t => !(t == id)) }).postToApi

/-- Constructor state (lines 33-41): empty queue, no timer, no max. -/
def SchedState.init : SchedState :=
  ⟨0, none, [], 0, none⟩

/-- Events that drive the scheduler: an enqueueing `execute` call, a
pending timer firing, and `setMaxQueueSize`. -/
inductive SchedStep : SchedState → SchedState → Prop where
  | enqueue (s : SchedState) : SchedStep s s.enqueue
  | fire (s : SchedState) (id : Nat) (h : id ∈ s.pendingTimers) :
      SchedStep s (s.fireTimer id)
  | setMax (s : SchedState) (m : Option Nat) :
      SchedStep s { s with maxQueueSize := m }

/-- States reachable from construction. -/
def SchedReachable (s : SchedState) : Prop :=
  Relation.ReflTransGen SchedStep SchedState.init s

/-- The timer invariant: the environment holds exactly the timer recorded
in `this._batchTimeout` — in particular never more than one. -/
def TimerInv (s : SchedState) : Prop :=
  match s.batchTimeout with
  | some id => s.pendingTimers = [id] ∧ id < s.nextTimerId
  | none => s.pendingTimers = []

/-!
Characterization helpers for `mergeRecursive`, used to state what the
merge does at an individual key, and the specification-side serializer for
the wire-format claim.
-/

/-- Keys of a field list, in order. -/
def fieldKeys (l : List (String × JsVal)) : List String :=
  l.map Prod.fst

/-- The value one `for`-iteration of `mergeRecursive` leaves at key `p`
when the previous value there was `old` (absent = `none`) and `obj2[p]`
is `v2`: nested plain objects merge recursively when that recursive call
returns, and everything else — including a recursive call that throws —
lands wholesale via the `else`/`catch` assignment. -/
def mergeValueAt (old : Option JsVal) (v2 : JsVal) : JsVal :=
  match v2 with
  | .vObj _ =>
    (match mergeRecursive (old.getD .vUndef) v2 with
     | .ok r => r
     | .error _ => v2)
  | _ => v2

/-- The value left at key `k` after iterating all of `obj2`'s fields `l`,
starting from `old` at that key: only fields keyed `k` touch it. -/
def mergeKeyTrace (old : Option JsVal) (l : List (String × JsVal))
    (k : String) : Option JsVal :=
  l.foldl (fun acc kv => if kv.1 = k then some (mergeValueAt acc kv.2) else acc) old

/-- Specification-side §4.4 pair list for one named parameter: primitive →
one `key=value` pair, `undefined` → one empty-valued pair, array → one
`key[]=elem` pair per element, nested mapping → one `key[subkey]=value`
pair per entry, unencodable kind → encoding error.  (`null`-valued
parameters contribute no pair; the claim under study does not constrain
them and the source filters them out before encoding.) -/
def specParamPairs (k : String) (v : JsVal) : Except String (List String) :=
  match v with
  | .vStr _ | .vNum _ | .vBool _ =>
    .ok [encodeURIComponent k ++ "=" ++ encodeURIComponent (jsToString v)]
  | .vUndef => .ok [encodeURIComponent k ++ "="]
  | .vNull => .ok []
  | .vArr elems =>
    .ok (elems.map (fun e =>
      encodeURIComponent k ++ "[]=" ++ encodeURIComponent (jsToString e)))
  | .vObj fields =>
    .ok (fields.map (fun kv =>
      encodeURIComponent k ++ "[" ++ encodeURIComponent kv.1 ++ "]=" ++
        encodeURIComponent (jsToString kv.2)))
  | .vFunc _ =>
    .error ("Unable to parameterize key " ++ k ++ " with type function")

/-- Specification-side call line, as the wire-format claim words it:
`method=<encoded-method>` followed by the call's encoded parameter pairs,
all joined by `&`. -/
def specCallLine (c : QueuedCall) : Except String String :=
  (mapExcept (fun kv => specParamPairs kv.1 kv.2)
      (c.params.filter (fun kv => !kv.2.isNull))).map
    (fun pairss => String.intercalate "&"
      (("method=" ++ encodeURIComponent c.method) :: pairss.flatten))

/-- Specification-side wire body: each call's line joined by newlines,
with a leading and a trailing newline framing the payload. -/
def specWireBody (queue : List QueuedCall) : Except String String :=
  (mapExcept specCallLine queue).map
    (fun lines => "\n" ++ String.intercalate "\n" lines ++ "\n")

/-!
Theorems settling the claims.
-/

/-- C1: the claim says both callers of two identical cached calls within
the TTL receive the same underlying outcome handle.  The code violates
this: `execute` is documented (lines 95-98) to return a promise, and the
first caller does get the promise it created, but on a live cache hit the
second caller gets the stored wrapper object `{expires, promise}` itself
(`return this._cache[cacheKey]`, line 126) instead of its `promise`
member.  The rest of the claim holds: the second call enqueues nothing,
and a third identical call after the TTL enqueues (hence exchanges) anew. -/
theorem c1_cache_hit_returns_entry_not_handle :
    execute (ApiState.init []) (.vStr "m") (.vObj [("a", .vNum 1)])
        (some (.seconds 60)) 0 false =
      (.handle 0,
       ⟨[], [⟨"m", .vObj [("a", .vNum 1)], 0⟩],
        [("m:\x7b\"a\":1\x7d", ⟨.finite 60000, 0⟩)], 1⟩) ∧
    execute
        ⟨[], [⟨"m", .vObj [("a", .vNum 1)], 0⟩],
         [("m:\x7b\"a\":1\x7d", ⟨.finite 60000, 0⟩)], 1⟩
        (.vStr "m") (.vObj [("a", .vNum 1)]) (some (.seconds 60)) 5000 false =
      (.entry ⟨.finite 60000, 0⟩,
       ⟨[], [⟨"m", .vObj [("a", .vNum 1)], 0⟩],
        [("m:\x7b\"a\":1\x7d", ⟨.finite 60000, 0⟩)], 1⟩) ∧
    (∀ id : Nat, ExecOutcome.entry ⟨.finite 60000, 0⟩ ≠ .handle id) ∧
    (execute
        ⟨[], [⟨"m", .vObj [("a", .vNum 1)], 0⟩],
         [("m:\x7b\"a\":1\x7d", ⟨.finite 60000, 0⟩)], 1⟩
        (.vStr "m") (.vObj [("a", .vNum 1)]) (some (.seconds 60)) 61000
        false).2.queue.length = 2 := by
  refine ⟨rfl, rfl, ?_, rfl⟩
  intro id
  simp

/-- C4 counterexample: the claim says a `null`-valued parameter is
serialized as the key with an empty value and never omitted.  At the call
`{method: 'm', params: {a: null}}` the serializer omits the pair entirely:
the line is `method=m`, not the claimed `method=m&a=`. -/
theorem c4_null_param_omitted_counterexample :
    stringifyCallParts ⟨"m", [("a", .vNull)]⟩ = .ok ["method=m"] ∧
    stringifyCall ⟨"m", [("a", .vNull)]⟩ = .ok "method=m" ∧
    ("method=m" : String) ≠ "method=m&a=" := by
  refine ⟨rfl, rfl, ?_⟩
  decide

/-- C4 amended: `null`-valued parameters are omitted from the wire line
entirely (the source filters them before encoding, per its comment that
null is unsupported by the API); an `undefined` value serializes as the
key with an empty value.  Had a `null` reached the encoder it would have
produced `key=null` — not an empty value — so explicit `null` and
`undefined` are not interchangeable anywhere in this encoder. -/
theorem c4_null_omitted_undefined_empty :
    (∀ m ps, stringifyCallParts ⟨m, ps⟩ =
       stringifyCallParts ⟨m, ps.filter (fun kv => !kv.2.isNull)⟩) ∧
    (∀ k, parameterize k .vUndef = .ok (encodeURIComponent k ++ "=")) ∧
    (∀ k, parameterize k .vNull = .ok (encodeURIComponent k ++ "=null")) := by
  refine ⟨?_, ?_, ?_⟩
  · intro m ps
    simp [stringifyCallParts, List.filter_filter]
  · intro k
    show Except.ok (encodeURIComponent k ++ "=" ++ encodeURIComponent (jsToString (.vStr ""))) = _
    have h : encodeURIComponent (jsToString (.vStr "")) = "" := rfl
    rw [h, String.append_empty]
  · intro k
    show Except.ok (encodeURIComponent k ++ "=" ++ encodeURIComponent (jsToString .vNull)) = _
    rw [String.append_assoc]
    rfl

/-- The encoder throws only for function-kind values: anything else
yields a pair string. -/
theorem parameterize_ok_of_not_func (k : String) (v : JsVal)
    (h : ∀ j, v ≠ .vFunc j) : ∃ s, parameterize k v = .ok s := by
  cases v <;> first
    | exact ⟨_, rfl⟩
    | exact absurd rfl (h _)

/-- A function-valued parameter among the encoded (non-`null`) pairs makes
the pair-by-pair encoding loop throw, the error naming some key that holds
a function. -/
theorem mapExceptParam_error (ps : List (String × JsVal))
    (h : ∃ k j, (k, JsVal.vFunc j) ∈ ps) :
    ∃ k, mapExcept (fun kv => parameterize kv.1 kv.2)
        (ps.filter (fun kv => !kv.2.isNull)) =
      .error ("Unable to parameterize key " ++ k ++ " with type function") := by
  obtain ⟨k, j, hmem⟩ := h
  induction ps with
  | nil => simp at hmem
  | cons head tail ih =>
    obtain ⟨p, v⟩ := head
    rw [List.filter_cons]
    by_cases hnull : (!(p, v).2.isNull) = true
    · rw [if_pos hnull]
      by_cases hfunc : ∃ jv, v = JsVal.vFunc jv
      · obtain ⟨jv, rfl⟩ := hfunc
        exact ⟨p, by simp [mapExcept, parameterize]⟩
      · obtain ⟨s, hs⟩ :=
          parameterize_ok_of_not_func p v (fun jv hj => hfunc ⟨jv, hj⟩)
        have hmem' : (k, JsVal.vFunc j) ∈ tail := by
          rcases List.mem_cons.mp hmem with heq | h'
          · cases heq
            exact absurd ⟨j, rfl⟩ hfunc
          · exact h'
        obtain ⟨k', hk'⟩ := ih hmem'
        refine ⟨k', ?_⟩
        simp only [mapExcept, hs, hk', Except.map]
    · rw [if_neg hnull]
      have hv : v = .vNull := by
        cases v <;> simp [JsVal.isNull] at hnull ⊢
      have hmem' : (k, JsVal.vFunc j) ∈ tail := by
        rcases List.mem_cons.mp hmem with heq | h'
        · cases heq
          simp [JsVal.isNull] at hnull
        · exact h'
      exact ih hmem'

/-- Lift of the encoding throw to a whole call line. -/
theorem stringifyCallParts_error_of_func (m : String) (ps : List (String × JsVal))
    (h : ∃ k j, (k, JsVal.vFunc j) ∈ ps) :
    ∃ k, stringifyCallParts ⟨m, ps⟩ =
      .error ("Unable to parameterize key " ++ k ++ " with type function") := by
  obtain ⟨k, hk⟩ := mapExceptParam_error ps h
  exact ⟨k, by simp only [stringifyCallParts, hk, Except.map]⟩

/-- Lift of the encoding throw to the whole batch serialization. -/
theorem stringifyQueue_error_of_func (queue : List QueuedCall)
    (h : ∃ c ∈ queue, ∃ k j, (k, JsVal.vFunc j) ∈ c.params) :
    ∃ msg, stringifyQueue queue = .error msg := by
  obtain ⟨c, hc, hfunc⟩ := h
  induction queue with
  | nil => simp at hc
  | cons c0 rest ih =>
    rcases List.mem_cons.mp hc with heq | h'
    · subst heq
      obtain ⟨k, hk⟩ := stringifyCallParts_error_of_func c.method c.params hfunc
      refine ⟨"Unable to parameterize key " ++ k ++ " with type function", ?_⟩
      have hcall : stringifyCall c =
          .error ("Unable to parameterize key " ++ k ++ " with type function") := by
        simp only [stringifyCall, hk, Except.map]
      simp only [stringifyQueue, mapExcept, hcall, Except.map]
    · obtain ⟨msg, hmsg⟩ := ih h'
      rcases hcall : stringifyCall c0 with e | b
      · exact ⟨e, by simp only [stringifyQueue, mapExcept, hcall, Except.map]⟩
      · refine ⟨msg, ?_⟩
        simp only [stringifyQueue, Except.map, mapExcept, hcall] at hmsg ⊢
        rcases hrest : mapExcept stringifyCall rest with e2 | bs
        · rw [hrest] at hmsg
          simp at hmsg ⊢
          exact hmsg
        · rw [hrest] at hmsg
          simp at hmsg

/-- C3 counterexample: the claim says a call whose params contain an
unencodable kind (here a function) errors synchronously at enqueue time
and never joins a batch.  In the code, `execute('m', {f: function(){}})`
does not throw: it returns the created promise and the call joins the
queue; the encoding error only surfaces later, when the flush serializes
the batch. -/
theorem c3_func_param_joins_queue_counterexample :
    execute (ApiState.init []) (.vStr "m") (.vObj [("f", .vFunc 0)]) none 0 false =
      (.handle 0, ⟨[], [⟨"m", .vObj [("f", .vFunc 0)], 0⟩], [], 1⟩) ∧
    (∀ msg, ExecOutcome.handle 0 ≠ .threw msg) := by
  refine ⟨rfl, ?_⟩
  intro msg
  simp

/-- C3 amended: an empty or non-string method throws synchronously at
enqueue time, before the call joins the queue (the state is untouched);
a valid method never throws at enqueue — even with function-valued params
the call joins the queue — and a batch containing a function-valued
top-level parameter fails at serialization time inside the flush, before
any network activity (the transport is never invoked for that batch). -/
theorem c3_validation_sync_encode_at_flush :
    (∀ st method params config now sweep, methodString method = none →
      execute st method params config now sweep =
        (.threw "Method is required to execute API calls", st)) ∧
    (∀ st method params now sweep s, methodString method = some s →
      (execute st method params none now sweep).1 = .handle st.nextHandle) ∧
    (∀ queue : List QueuedRecord,
      (∃ rec ∈ queue, ∃ k j, (k, JsVal.vFunc j) ∈ paramFields rec.params) →
      ∃ msg, flushAttempt queue = .serializationThrew msg) := by
  refine ⟨?_, ?_, ?_⟩
  · intro st method params config now sweep h
    simp [execute, h]
  · intro st method params now sweep s h
    cases sweep <;>
      simp [execute, h, cacheDirectiveTruthy, enqueueAndStore]
  · intro queue h
    obtain ⟨rec, hrec, k, j, hk⟩ := h
    obtain ⟨msg, hmsg⟩ := stringifyQueue_error_of_func (queue.map QueuedRecord.toCall)
      ⟨rec.toCall, List.mem_map_of_mem _ hrec, k, j, hk⟩
    exact ⟨msg, by simp only [flushAttempt, hmsg]⟩

/-- C3 witness: the amended statement at concrete inputs — a numeric
method throws synchronously, a valid call with a function-valued param
returns its promise, and flushing such a batch fails at serialization. -/
theorem c3_validation_sync_encode_at_flush_witness :
    execute (ApiState.init []) (.vNum 5) .vUndef none 0 false =
      (.threw "Method is required to execute API calls", ApiState.init []) ∧
    (execute (ApiState.init []) (.vStr "m") .vUndef none 0 false).1 = .handle 0 ∧
    ∃ msg, flushAttempt [⟨"m", .vObj [("f", .vFunc 0)], 0⟩] = .serializationThrew msg :=
  ⟨c3_validation_sync_encode_at_flush.1 _ _ _ _ _ _ rfl,
   c3_validation_sync_encode_at_flush.2.1 _ _ _ _ _ "m" rfl,
   c3_validation_sync_encode_at_flush.2.2 _
     ⟨⟨"m", .vObj [("f", .vFunc 0)], 0⟩, by simp, "f", 0, by simp [paramFields]⟩⟩

/-- `resetQueue` preserves the timer invariant (and establishes an empty
environment: whatever single timer was pending is cancelled). -/
theorem timerInv_resetQueue (s : SchedState) (h : TimerInv s) :
    TimerInv s.resetQueue ∧ s.resetQueue.pendingTimers = [] := by
  obtain ⟨q, bt, pend, nid, mx⟩ := s
  cases bt with
  | none =>
    simp [TimerInv, SchedState.resetQueue] at h ⊢
    exact h
  | some id =>
    simp [TimerInv, SchedState.resetQueue] at h ⊢
    simp [h.1]

/-- One enqueue preserves the timer invariant. -/
theorem timerInv_enqueue (s : SchedState) (h : TimerInv s) :
    TimerInv s.enqueue := by
  obtain ⟨q, bt, pend, nid, mx⟩ := s
  unfold SchedState.enqueue
  cases mx with
  | none =>
    cases bt with
    | none =>
      simp [TimerInv] at h
      simp [SchedState.scheduleIfNone, TimerInv, h]
    | some id =>
      simpa [SchedState.scheduleIfNone, TimerInv] using h
  | some m =>
    by_cases hm : m ≠ 0 ∧ q + 1 ≥ m
    · simp only [if_pos hm]
      exact (timerInv_resetQueue _ (by simpa [TimerInv] using h)).1
    · simp only [if_neg hm]
      cases bt with
      | none =>
        simp [TimerInv] at h
        simp [SchedState.scheduleIfNone, TimerInv, h]
      | some id =>
        simpa [SchedState.scheduleIfNone, TimerInv] using h

/-- Firing a pending timer preserves the timer invariant. -/
theorem timerInv_fire (s : SchedState) (id : Nat) (h : TimerInv s)
    (hid : id ∈ s.pendingTimers) : TimerInv (s.fireTimer id) := by
  obtain ⟨q, bt, pend, nid, mx⟩ := s
  cases bt with
  | none =>
    simp [TimerInv] at h
    subst h
    simp at hid
  | some id0 =>
    simp [TimerInv] at h
    obtain ⟨hpend, _⟩ := h
    subst hpend
    simp at hid
    subst hid
    simp [SchedState.fireTimer, SchedState.postToApi, SchedState.resetQueue, TimerInv]

/-- `setMaxQueueSize` does not touch the timer state. -/
theorem timerInv_setMax (s : SchedState) (m : Option Nat) (h : TimerInv s) :
    TimerInv { s with maxQueueSize := m } := by
  obtain ⟨q, bt, pend, nid, mx⟩ := s
  cases bt <;> simpa [TimerInv] using h

/-- Every reachable scheduler state satisfies the timer invariant. -/
theorem timerInv_of_reachable (s : SchedState) (h : SchedReachable s) :
    TimerInv s := by
  induction h with
  | refl => simp [TimerInv, SchedState.init]
  | tail h1 h2 ih =>
    cases h2 with
    | enqueue => exact timerInv_enqueue _ ih
    | fire id hid => exact timerInv_fire _ id ih hid
    | setMax m => exact timerInv_setMax _ m ih

/-- C7: at every reachable state at most one deferred flush timer is
pending; an enqueue that makes the queue length reach or exceed a
configured (non-zero) max queue size flushes synchronously — queue
emptied, no timer left, and no new timer created; otherwise a timer is
scheduled only when none is already pending (a pending timer leaves the
timer state untouched); and the flush transition (`_postToApi` →
`resetQueue`) cancels any pending timer and empties the queue. -/
theorem c7_single_timer_flush_policy :
    (∀ s : SchedState, SchedReachable s → s.pendingTimers.length ≤ 1) ∧
    (∀ s : SchedState, ∀ m : Nat, TimerInv s → s.maxQueueSize = some m →
      m ≠ 0 → s.queueLen + 1 ≥ m →
      s.enqueue.queueLen = 0 ∧ s.enqueue.batchTimeout = none ∧
      s.enqueue.pendingTimers = [] ∧ s.enqueue.nextTimerId = s.nextTimerId) ∧
    (∀ s : SchedState, ∀ id : Nat, s.batchTimeout = some id →
      (∀ m : Nat, s.maxQueueSize = some m → m = 0 ∨ s.queueLen + 1 < m) →
      s.enqueue = { s with queueLen := s.queueLen + 1 }) ∧
    (∀ s : SchedState, s.batchTimeout = none →
      (∀ m : Nat, s.maxQueueSize = some m → m = 0 ∨ s.queueLen + 1 < m) →
      s.enqueue = { s with queueLen := s.queueLen + 1,
                           batchTimeout := some s.nextTimerId,
                           pendingTimers := s.pendingTimers ++ [s.nextTimerId],
                           nextTimerId := s.nextTimerId + 1 }) ∧
    (∀ s : SchedState, TimerInv s →
      s.postToApi.queueLen = 0 ∧ s.postToApi.batchTimeout = none ∧
      s.postToApi.pendingTimers = []) := by
  refine ⟨?_, ?_, ?_, ?_, ?_⟩
  · intro s h
    have hInv := timerInv_of_reachable s h
    obtain ⟨q, bt, pend, nid, mx⟩ := s
    cases bt with
    | none => simp [TimerInv] at hInv; simp [hInv]
    | some id => simp [TimerInv] at hInv; simp [hInv.1]
  · intro s m hInv hmx hm hge
    obtain ⟨q, bt, pend, nid, mx⟩ := s
    subst hmx
    have hcond : m ≠ 0 ∧ q + 1 ≥ m := ⟨hm, hge⟩
    have henq :
        SchedState.enqueue ⟨q, bt, pend, nid, some m⟩ =
          SchedState.postToApi ⟨q + 1, bt, pend, nid, some m⟩ := by
      simp [SchedState.enqueue, if_pos hcond]
    rw [henq]
    have hreset := timerInv_resetQueue ⟨q + 1, bt, pend, nid, some m⟩
      (by cases bt <;> simpa [TimerInv] using hInv)
    refine ⟨rfl, rfl, hreset.2, rfl⟩
  · intro s id hbt hnoflush
    obtain ⟨q, bt, pend, nid, mx⟩ := s
    simp only at hbt
    subst hbt
    cases mx with
    | none => simp [SchedState.enqueue, SchedState.scheduleIfNone]
    | some m =>
      rcases hnoflush m rfl with h0 | hlt
      · subst h0
        simp [SchedState.enqueue, SchedState.scheduleIfNone]
      · have hlt' : q + 1 < m := hlt
        have : ¬(m ≠ 0 ∧ q + 1 ≥ m) := by
          rintro ⟨-, hge⟩
          omega
        simp [SchedState.enqueue, if_neg this, SchedState.scheduleIfNone]
  · intro s hbt hnoflush
    obtain ⟨q, bt, pend, nid, mx⟩ := s
    simp only at hbt
    subst hbt
    cases mx with
    | none => simp [SchedState.enqueue, SchedState.scheduleIfNone]
    | some m =>
      rcases hnoflush m rfl with h0 | hlt
      · subst h0
        simp [SchedState.enqueue, SchedState.scheduleIfNone]
      · have hlt' : q + 1 < m := hlt
        have : ¬(m ≠ 0 ∧ q + 1 ≥ m) := by
          rintro ⟨-, hge⟩
          omega
        simp [SchedState.enqueue, if_neg this, SchedState.scheduleIfNone]
  · intro s hInv
    have hreset := timerInv_resetQueue s hInv
    exact ⟨rfl, rfl, hreset.2⟩

/-- C7 witness: the policy at concrete states — the initial state is
reachable with no pending timer; a queue of size 1 with max 2 flushes
synchronously on the next enqueue; an enqueue under a pending timer
schedules nothing new; an enqueue with no timer schedules exactly one;
and a flush from a state with one pending timer cancels it. -/
theorem c7_single_timer_flush_policy_witness :
    SchedState.init.pendingTimers.length ≤ 1 ∧
    (SchedState.enqueue ⟨1, none, [], 0, some 2⟩).queueLen = 0 ∧
    SchedState.enqueue ⟨3, some 7, [7], 8, none⟩ = ⟨4, some 7, [7], 8, none⟩ ∧
    SchedState.enqueue ⟨0, none, [], 5, none⟩ = ⟨1, some 5, [5], 6, none⟩ ∧
    (SchedState.postToApi ⟨2, some 4, [4], 5, none⟩).pendingTimers = [] :=
  ⟨c7_single_timer_flush_policy.1 SchedState.init Relation.ReflTransGen.refl,
   (c7_single_timer_flush_policy.2.1 ⟨1, none, [], 0, some 2⟩ 2 (by simp [TimerInv])
     rfl (by decide) (by decide)).1,
   c7_single_timer_flush_policy.2.2.1 ⟨3, some 7, [7], 8, none⟩ 7 rfl
     (by intro m hm; cases hm),
   c7_single_timer_flush_policy.2.2.2.1 ⟨0, none, [], 5, none⟩ rfl
     (by intro m hm; cases hm),
   (c7_single_timer_flush_policy.2.2.2.2 ⟨2, some 4, [4], 5, none⟩
     (by simp [TimerInv])).2.2⟩

/-- With no registered events, `resolveQueue` settles record `i` with the
demultiplex of effective result `i`, in order, and nothing throws. -/
theorem resolveQueueGo_no_events (results : List JsVal) :
    ∀ (queue : List QueuedRecord) (i : Nat),
      resolveQueueGo [] results i queue =
        ((List.range queue.length).map
           (fun j => TraceEv.settle (i + j) (demuxSettle (effectiveResult results (i + j)))),
         (List.range queue.length).map
           (fun j => demuxSettle (effectiveResult results (i + j))),
         none) := by
  intro queue
  induction queue with
  | nil => intro i; rfl
  | cons rec rest ih =>
    intro i
    simp only [resolveQueueGo, lookupAssoc, ite_self, ih (i + 1), List.length_cons,
      List.range_succ_eq_map, List.map_cons, List.map_map, Function.comp]
    have harith : ∀ j : Nat, i + 1 + j = i + (j + 1) := fun j => by omega
    simp [harith]

/-- C5 counterexample: the claim says a record is rejected exactly when
`result.stat` is present and not `'ok'`.  The code tests truthiness, not
presence: a parsed entry `{stat: ""}` carries a present `stat` different
from `'ok'`, yet the record resolves. -/
theorem c5_falsy_stat_resolves_counterexample :
    settleBatch [] [⟨"m", .vObj [], 0⟩] [.vObj [("stat", .vStr "")]] =
      [.resolved (.vObj [("stat", .vStr "")])] ∧
    statRead (.vObj [("stat", .vStr "")]) = .vStr "" ∧
    JsVal.vStr "" ≠ JsVal.vStr "ok" ∧
    (∀ e, Settlement.resolved (.vObj [("stat", .vStr "")]) ≠ .rejected e) := by
  refine ⟨rfl, rfl, by simp, ?_⟩
  intro e
  simp

/-- C5 amended: with no registered events, record `i` of a batch settles
with the demultiplex of the parsed entry at index `i`, where an absent,
`null` or `undefined` entry — including every tail index of a response
shorter than the batch — is replaced by the synthesized default
`{result: null, stat: 'ok'}`; a record is rejected with the full result
object exactly when `result.stat` is truthy (non-empty, non-zero, …) and
not equal to `'ok'`, and resolved with the result object otherwise. -/
theorem c5_demux_by_index_truthy_stat :
    (∀ (queue : List QueuedRecord) (results : List JsVal),
      settleBatch [] queue results =
        (List.range queue.length).map
          (fun i => demuxSettle (effectiveResult results i))) ∧
    (∀ (results : List JsVal) (i : Nat), results.length ≤ i →
      effectiveResult results i = defaultResult) ∧
    (∀ r : JsVal, demuxSettle r = .rejected r ↔
      ((statRead r).truthy = true ∧ isStrOk (statRead r) = false)) ∧
    (∀ r : JsVal, demuxSettle r = .rejected r ∨ demuxSettle r = .resolved r) := by
  refine ⟨?_, ?_, ?_, ?_⟩
  · intro queue results
    simp [settleBatch, resolveQueueGo_no_events results queue 0]
  · intro results i hlen
    have hnone : results[i]? = none := List.getElem?_eq_none hlen
    simp [effectiveResult, List.getD, hnone, JsVal.isNullish]
  · intro r
    constructor
    · intro h
      by_cases hc : ((statRead r).truthy && !(isStrOk (statRead r))) = true
      · simpa using hc
      · rw [demuxSettle, if_neg hc] at h
        cases h
    · intro ⟨h1, h2⟩
      rw [demuxSettle, if_pos (by simp [h1, h2])]
  · intro r
    rw [demuxSettle]
    by_cases hc : ((statRead r).truthy && !(isStrOk (statRead r))) = true
    · left; rw [if_pos hc]
    · right; rw [if_neg hc]

/-- C5 witness: a response shorter than the batch yields the default at
the missing index. -/
theorem c5_demux_by_index_truthy_stat_witness :
    effectiveResult [JsVal.vNum 3] 1 = defaultResult :=
  c5_demux_by_index_truthy_stat.2.1 [JsVal.vNum 3] 1 (by decide)

/-- An element whose parse throws aborts the element loop with that
throw, regardless of how many elements before it succeeded. -/
theorem mapExcept_append_error {α β γ : Type} (f : α → Except γ β) (bad : α)
    (e : γ) (hbad : f bad = .error e) :
    ∀ (pre post : List α), (∀ x ∈ pre, ∃ v, f x = .ok v) →
      mapExcept f (pre ++ bad :: post) = .error e := by
  intro pre
  induction pre with
  | nil =>
    intro post _
    simp [mapExcept, hbad]
  | cons a rest ih =>
    intro post hok
    obtain ⟨v, hv⟩ := hok a (by simp)
    have htail := ih post (fun x hx => hok x (by simp [hx]))
    simp only [List.cons_append, mapExcept, hv, List.append_eq]
    rw [htail]
    rfl

/-- When the exchange-and-parse stage of the promise chain fails, the
`.catch` rejects every record of the in-flight batch with that failure. -/
theorem postPipeline_of_error (events : List (String × List Subscriber))
    (queue : List QueuedRecord) (transport : Except JsVal String)
    (parse : String → Except JsVal JsVal) (e : JsVal)
    (h : (do
        let resp ← transport
        parseResponseBody parse resp : Except JsVal (List JsVal)) = .error e) :
    postPipeline events queue transport parse =
      queue.map (fun _ => Settlement.rejected e) := by
  simp only [postPipeline]
  rw [h]

/-- C6: whenever the transport exchange fails, or the raw body fails to
parse as the outer JSON array, or any inner element's parse fails, every
record of the in-flight batch is rejected with that same single failure
object, and no record of the batch resolves. -/
theorem c6_batch_failure_rejects_all (events : List (String × List Subscriber))
    (queue : List QueuedRecord) (transport : Except JsVal String)
    (parse : String → Except JsVal JsVal) (e : JsVal)
    (h : transport = .error e ∨
      (∃ body, transport = .ok body ∧ parse body = .error e) ∨
      (∃ body elems pre bad post, transport = .ok body ∧
        parse body = .ok (.vArr elems) ∧ elems = pre ++ bad :: post ∧
        (∀ x ∈ pre, ∃ v, parse (jsToString x) = .ok v) ∧
        parse (jsToString bad) = .error e)) :
    postPipeline events queue transport parse =
      queue.map (fun _ => Settlement.rejected e) ∧
    ∀ s ∈ postPipeline events queue transport parse, ∀ r, s ≠ .resolved r := by
  have hmain : postPipeline events queue transport parse =
      queue.map (fun _ => Settlement.rejected e) := by
    rcases h with htr | ⟨body, htr, hparse⟩ |
      ⟨body, elems, pre, bad, post, htr, hparse, helems, hok, hbad⟩
    · exact postPipeline_of_error _ _ _ _ _ (by rw [htr]; rfl)
    · refine postPipeline_of_error _ _ _ _ _ ?_
      rw [htr]
      show parseResponseBody parse body = .error e
      simp only [parseResponseBody]
      rw [hparse]
      rfl
    · refine postPipeline_of_error _ _ _ _ _ ?_
      rw [htr]
      show parseResponseBody parse body = .error e
      simp only [parseResponseBody]
      rw [hparse]
      show mapExcept (fun el => parse (jsToString el)) elems = .error e
      rw [helems]
      exact mapExcept_append_error (fun el => parse (jsToString el)) bad e hbad pre post hok
  refine ⟨hmain, ?_⟩
  rw [hmain]
  intro s hs r
  rcases List.mem_map.mp hs with ⟨_, _, rfl⟩
  simp

/-- C6 witness: a transport failure rejects both records of a two-call
batch with the failure object. -/
theorem c6_batch_failure_rejects_all_witness :
    postPipeline [] [⟨"m", .vObj [], 0⟩, ⟨"n", .vObj [], 1⟩]
        (.error (.vStr "network down")) (fun _ => .ok .vNull) =
      [.rejected (.vStr "network down"), .rejected (.vStr "network down")] :=
  (c6_batch_failure_rejects_all [] [⟨"m", .vObj [], 0⟩, ⟨"n", .vObj [], 1⟩]
    (.error (.vStr "network down")) (fun _ => .ok .vNull) (.vStr "network down")
    (Or.inl rfl)).1

/-- Reading the key just updated. -/
theorem lookupJs_map_update (fs : List (String × JsVal)) (k : String) (v : JsVal) :
    lookupJs (fs.map (fun kv => if kv.1 = k then (k, v) else kv)) k =
      if fs.any (fun kv => kv.1 = k) then some v else none := by
  induction fs with
  | nil => rfl
  | cons kv rest ih =>
    obtain ⟨p, w⟩ := kv
    simp only [List.map_cons, List.any_cons]
    by_cases hp : p = k
    · subst hp
      rw [if_pos rfl]
      simp [lookupJs]
    · rw [if_neg hp]
      simp only [lookupJs, List.any_cons, decide_eq_false hp, Bool.false_or, ih]
      simp [hp]

/-- Updating key `k` does not change reads at other keys. -/
theorem lookupJs_map_update_other (fs : List (String × JsVal)) (k : String)
    (v : JsVal) (q : String) (h : q ≠ k) :
    lookupJs (fs.map (fun kv => if kv.1 = k then (k, v) else kv)) q =
      lookupJs fs q := by
  induction fs with
  | nil => rfl
  | cons kv rest ih =>
    obtain ⟨p, w⟩ := kv
    simp only [List.map_cons]
    by_cases hp : p = k
    · subst hp
      rw [if_pos rfl]
      simp [lookupJs, Ne.symm h, ih]
    · rw [if_neg hp]
      by_cases hq : p = q
      · subst hq
        simp [lookupJs]
      · simp [lookupJs, hq, ih]

/-- Lookup distributes over append, first list first. -/
theorem lookupJs_append (fs l : List (String × JsVal)) (k : String) :
    lookupJs (fs ++ l) k =
      (match lookupJs fs k with
       | some v => some v
       | none => lookupJs l k) := by
  induction fs with
  | nil => rfl
  | cons kv rest ih =>
    obtain ⟨p, w⟩ := kv
    by_cases hp : p = k
    · subst hp
      simp [lookupJs]
    · simp [lookupJs, hp, ih]

/-- A key absent from the field list reads as absent. -/
theorem lookupJs_none_of_any_false (fs : List (String × JsVal)) (k : String)
    (h : fs.any (fun kv => kv.1 = k) = false) : lookupJs fs k = none := by
  induction fs with
  | nil => rfl
  | cons kv rest ih =>
    obtain ⟨p, w⟩ := kv
    simp only [List.any_cons, Bool.or_eq_false_iff, decide_eq_false_iff_not] at h
    simp [lookupJs, h.1, ih h.2]

/-- Reading back a fresh assignment. -/
theorem lookupJs_setKey_self (fs : List (String × JsVal)) (k : String) (v : JsVal) :
    lookupJs (setKey fs k v) k = some v := by
  unfold setKey
  by_cases h : fs.any (fun kv => kv.1 = k) = true
  · rw [if_pos h, lookupJs_map_update, if_pos h]
  · rw [if_neg h, lookupJs_append,
      lookupJs_none_of_any_false fs k (Bool.eq_false_iff.mpr h)]
    simp [lookupJs]

/-- Assignment at one key preserves reads at every other key. -/
theorem lookupJs_setKey_other (fs : List (String × JsVal)) (p : String)
    (v : JsVal) (k : String) (h : p ≠ k) :
    lookupJs (setKey fs p v) k = lookupJs fs k := by
  unfold setKey
  by_cases hany : fs.any (fun kv => kv.1 = p) = true
  · rw [if_pos hany, lookupJs_map_update_other fs p v k (Ne.symm h)]
  · rw [if_neg hany, lookupJs_append]
    rcases hl : lookupJs fs k with _ | w
    · simp [lookupJs, h]
    · rfl

/-- One `for`-iteration of the merge over a plain-object target: assign at
the iterated key the value `mergeValueAt` describes, then continue. -/
theorem mergeFields_obj_cons (fs : List (String × JsVal)) (p : String)
    (v2 : JsVal) (rest : List (String × JsVal)) :
    mergeFields (.vObj fs) ((p, v2) :: rest) =
      mergeFields (.vObj (setKey fs p (mergeValueAt (lookupJs fs p) v2))) rest := by
  cases v2 with
  | vObj g =>
    simp only [mergeFields, constructorIsObject, getProp, setProp, mergeValueAt]
    rcases h : mergeRecursive ((lookupJs fs p).getD .vUndef) (.vObj g) with e | r <;>
      simp [h]
  | vStr s => rfl
  | vNum n => rfl
  | vBool b => rfl
  | vNull => rfl
  | vUndef => rfl
  | vArr elems => rfl
  | vFunc id => rfl

/-- Merging any object into a plain-object target never throws, stays a
plain object, and leaves at every key exactly the per-key fold
`mergeKeyTrace` describes. -/
theorem mergeFields_obj (l : List (String × JsVal)) :
    ∀ fs, ∃ fs', mergeFields (.vObj fs) l = .ok (.vObj fs') ∧
      ∀ k, lookupJs fs' k = mergeKeyTrace (lookupJs fs k) l k := by
  induction l with
  | nil => exact fun fs => ⟨fs, rfl, fun k => rfl⟩
  | cons kv rest ih =>
    intro fs
    obtain ⟨p, v2⟩ := kv
    obtain ⟨fs', h1, h2⟩ := ih (setKey fs p (mergeValueAt (lookupJs fs p) v2))
    refine ⟨fs', ?_, ?_⟩
    · rw [mergeFields_obj_cons]
      exact h1
    · intro k
      rw [h2 k]
      unfold mergeKeyTrace
      simp only [List.foldl_cons]
      congr 1
      by_cases hp : p = k
      · subst hp
        simp [lookupJs_setKey_self]
      · simp [hp, lookupJs_setKey_other fs p _ k hp]

/-- Merging a non-empty object into `undefined` throws (both the `try`
assignment and its `catch` fallback fail on an `undefined` target). -/
theorem mergeRecursive_undef_error (x : String × JsVal)
    (rest : List (String × JsVal)) :
    mergeRecursive .vUndef (.vObj (x :: rest)) = .error () := by
  obtain ⟨p, v⟩ := x
  cases v <;> rfl

/-- C2: for every execute call the params sent are the instance-level
fixed params merged with the caller's params — starting from `{}`, the
instance params are applied first and the call params second, so call
params override on key collision; at each key the result is
`mergeValueAt`: recursion into nested plain mappings (when the recursive
merge returns), and wholesale replacement for every non-mapping value as
well as for a mapping landing on a non-object (in particular, a non-empty
nested mapping under a key absent from the instance params lands
wholesale, and the merge never throws when the target is a plain object). -/
theorem c2_params_merge :
    (∀ (st : ApiState) (method : JsVal) (pf : List (String × JsVal))
       (now : Int) (sweep : Bool) (s : String), methodString method = some s →
      ∃ fs', (execute st method (.vObj pf) none now sweep).2.queue =
          st.queue ++ [⟨s, .vObj fs', st.nextHandle⟩] ∧
        ∀ k, lookupJs fs' k =
          mergeKeyTrace (mergeKeyTrace none st.optionsParams k) pf k) ∧
    (∀ fs1 l, ∃ fs',
        mergeRecursive (.vObj fs1) (.vObj l) = .ok (.vObj fs') ∧
        ∀ k, lookupJs fs' k = mergeKeyTrace (lookupJs fs1 k) l k) ∧
    (∀ old v2, (∀ g, v2 ≠ .vObj g) → mergeValueAt old v2 = v2) ∧
    (∀ a g, mergeRecursive (.vObj a) (.vObj g) =
        .ok (mergeValueAt (some (.vObj a)) (.vObj g))) ∧
    (∀ x rest_g, mergeValueAt none (.vObj (x :: rest_g)) = .vObj (x :: rest_g)) := by
  refine ⟨?_, ?_, ?_, ?_, ?_⟩
  · intro st method pf now sweep s hm
    obtain ⟨bs, hb, hbk⟩ := mergeFields_obj st.optionsParams []
    obtain ⟨fs', hf, hfk⟩ := mergeFields_obj pf bs
    refine ⟨fs', ?_, ?_⟩
    · have hb' : mergeRecursive (.vObj []) (.vObj st.optionsParams) =
          .ok (.vObj bs) := hb
      have hf' : mergeRecursive (.vObj bs) (.vObj pf) = .ok (.vObj fs') := hf
      have hstep : (do
          let base ← (Except.ok (JsVal.vObj bs) : Except Unit JsVal)
          mergeRecursive base (.vObj pf)) = mergeRecursive (.vObj bs) (.vObj pf) := rfl
      cases sweep <;>
        simp [execute, hm, cacheDirectiveTruthy, enqueueAndStore, JsVal.truthy,
          hb', hstep, hf']
    · intro k
      rw [hfk k, hbk k]
      rfl
  · intro fs1 l
    obtain ⟨fs', h1, h2⟩ := mergeFields_obj l fs1
    exact ⟨fs', h1, h2⟩
  · intro old v2 h
    cases v2 with
    | vObj g => exact absurd rfl (h g)
    | vStr s => rfl
    | vNum n => rfl
    | vBool b => rfl
    | vNull => rfl
    | vUndef => rfl
    | vArr elems => rfl
    | vFunc id => rfl
  · intro a g
    obtain ⟨fs', h1, _⟩ := mergeFields_obj g a
    have h1' : mergeRecursive (.vObj a) (.vObj g) = .ok (.vObj fs') := h1
    simp [mergeValueAt, h1']
  · intro x rest_g
    simp [mergeValueAt, mergeRecursive_undef_error]

/-- C2 witness: a concrete call whose params hold a non-empty nested
mapping under a key absent from the instance params enqueues without
throwing, with the instance's `track` kept and the nested mapping landed
wholesale; and a primitive call param overrides wholesale. -/
theorem c2_params_merge_witness :
    (∃ fs', (execute (ApiState.init [("track", .vStr "t")]) (.vStr "m")
          (.vObj [("a", .vObj [("b", .vNum 1)])]) none 0 false).2.queue =
        [] ++ [⟨"m", .vObj fs', 0⟩] ∧
      ∀ k, lookupJs fs' k =
        mergeKeyTrace (mergeKeyTrace none [("track", JsVal.vStr "t")] k)
          [("a", JsVal.vObj [("b", JsVal.vNum 1)])] k) ∧
    mergeValueAt (some (.vNum 5)) (.vStr "x") = .vStr "x" :=
  ⟨c2_params_merge.1 (ApiState.init [("track", .vStr "t")]) (.vStr "m")
      [("a", .vObj [("b", .vNum 1)])] 0 false "m" rfl,
   c2_params_merge.2.2.1 (some (.vNum 5)) (.vStr "x") (fun _ h => nomatch h)⟩

/-- Subscribers that all return are invoked one after the other, in
registration order, and nothing throws. -/
theorem runSubs_all_none (i : Nat) (tag : String) :
    ∀ (subs : List Subscriber) (b : Nat),
      (∀ sub ∈ subs, sub.throws = none) →
      runSubs i tag subs b =
        ((List.range subs.length).map (fun j => TraceEv.invoke i tag (b + j)),
         none) := by
  intro subs
  induction subs with
  | nil => intro b _; rfl
  | cons s rest ih =>
    intro b h
    have hs : s.throws = none := h s (by simp)
    have htail := ih (b + 1) (fun sub hsub => h sub (by simp [hsub]))
    simp only [runSubs, hs, htail, List.length_cons, List.range_succ_eq_map,
      List.map_cons, List.map_map, Function.comp]
    have harith : ∀ j : Nat, b + 1 + j = b + (j + 1) := fun j => by omega
    simp [harith]

/-- The first throwing subscriber aborts the loop: the ones registered
before it run first, then it runs and throws. -/
theorem runSubs_first_throw (i : Nat) (tag : String) (e : JsVal)
    (thrower : Subscriber) (hth : thrower.throws = some e) :
    ∀ (pre after : List Subscriber) (b : Nat),
      (∀ sub ∈ pre, sub.throws = none) →
      runSubs i tag (pre ++ thrower :: after) b =
        ((List.range (pre.length + 1)).map (fun j => TraceEv.invoke i tag (b + j)),
         some e) := by
  intro pre
  induction pre with
  | nil =>
    intro after b _
    simp [runSubs, hth, List.range_succ]
  | cons s rest ih =>
    intro after b h
    have hs : s.throws = none := h s (by simp)
    have htail := ih after (b + 1) (fun sub hsub => h sub (by simp [hsub]))
    simp only [List.cons_append, runSubs, hs, htail, List.length_cons,
      List.range_succ_eq_map, List.map_cons, List.map_map, Function.comp]
    have harith : ∀ j : Nat, b + 1 + j = b + (j + 1) := fun j => by omega
    simp [htail, harith]
    rw [List.range_succ_eq_map]
    simp [Function.comp]

/-- When every registered subscriber returns normally, the demultiplex
loop runs to completion: for each record, its stat's subscribers are
invoked in registration order, then the record settles with its own
demultiplexed result; nothing throws. -/
theorem resolveQueueGo_all_none (events : List (String × List Subscriber))
    (results : List JsVal)
    (h : ∀ tag subs, lookupAssoc events tag = some subs →
      ∀ sub ∈ subs, sub.throws = none) :
    ∀ (queue : List QueuedRecord) (idx : Nat),
      resolveQueueGo events results idx queue =
        ((List.range queue.length).flatMap (fun j =>
            (List.range
                (if (statRead (effectiveResult results (idx + j))).truthy then
                  ((lookupAssoc events
                      (jsToString (statRead (effectiveResult results (idx + j))))).getD
                    []).length
                 else 0)).map
              (fun b => TraceEv.invoke (idx + j)
                (jsToString (statRead (effectiveResult results (idx + j)))) b) ++
            [TraceEv.settle (idx + j) (demuxSettle (effectiveResult results (idx + j)))]),
         (List.range queue.length).map
           (fun j => demuxSettle (effectiveResult results (idx + j))),
         none) := by
  intro queue
  induction queue with
  | nil => intro idx; rfl
  | cons rec rest ih =>
    intro idx
    have hsubs :
        (if (statRead (effectiveResult results idx)).truthy then
          match lookupAssoc events
              (jsToString (statRead (effectiveResult results idx))) with
          | some subs =>
            runSubs idx (jsToString (statRead (effectiveResult results idx))) subs 0
          | none => ([], none)
         else ([], none)) =
          ((List.range
              (if (statRead (effectiveResult results idx)).truthy then
                ((lookupAssoc events
                    (jsToString (statRead (effectiveResult results idx)))).getD
                  []).length
               else 0)).map
            (fun b => TraceEv.invoke idx
              (jsToString (statRead (effectiveResult results idx))) b),
           none) := by
      by_cases hs : (statRead (effectiveResult results idx)).truthy = true
      · rw [if_pos hs, if_pos hs]
        rcases hlk : lookupAssoc events
            (jsToString (statRead (effectiveResult results idx))) with _ | subs
        · rfl
        · have hr := runSubs_all_none idx
            (jsToString (statRead (effectiveResult results idx))) subs 0
            (h _ subs hlk)
          simp [hr]
      · rw [if_neg hs, if_neg hs]
        rfl
    simp only [resolveQueueGo, hsubs, ih (idx + 1), List.length_cons,
      List.range_succ_eq_map, List.flatMap_cons, List.map_cons, List.map_map,
      List.flatMap_map, Function.comp]
    have harith : ∀ j : Nat, idx + 1 + j = idx + (j + 1) := fun j => by omega
    simp [harith, Nat.add_zero]

/-- If every record before index `i` has only returning subscribers, and
record `i`'s stat is truthy with a registered subscriber list whose first
throwing member throws `e`, then the demultiplex loop settles exactly the
records before `i` (each with its own result) and aborts with `e`. -/
theorem resolveQueueGo_first_throw (events : List (String × List Subscriber))
    (results : List JsVal) (e : JsVal) (thrower : Subscriber)
    (hth : thrower.throws = some e) :
    ∀ (queue : List QueuedRecord) (idx i : Nat),
      idx ≤ i → i < idx + queue.length →
      (∀ j, idx ≤ j → j < i → ∀ subs,
        lookupAssoc events (jsToString (statRead (effectiveResult results j))) =
          some subs →
        ∀ sub ∈ subs, sub.throws = none) →
      (statRead (effectiveResult results i)).truthy = true →
      ∀ subs pre after,
        lookupAssoc events (jsToString (statRead (effectiveResult results i))) =
          some subs →
        subs = pre ++ thrower :: after →
        (∀ sub ∈ pre, sub.throws = none) →
        (resolveQueueGo events results idx queue).2.1 =
          (List.range (i - idx)).map
            (fun j => demuxSettle (effectiveResult results (idx + j))) ∧
        (resolveQueueGo events results idx queue).2.2 = some e := by
  intro queue
  induction queue with
  | nil =>
    intro idx i hle hlt
    simp at hlt
    omega
  | cons rec rest ih =>
    intro idx i hle hlt hclean hs subs pre after hlk hsplit hpre
    by_cases heq : idx = i
    · subst heq
      subst hsplit
      have hr := runSubs_first_throw idx
        (jsToString (statRead (effectiveResult results idx))) e thrower hth
        pre after 0 hpre
      simp [resolveQueueGo, hs, hlk, hr]
    · have hidx : idx < i := lt_of_le_of_ne hle heq
      have hstep :
          (if (statRead (effectiveResult results idx)).truthy then
            match lookupAssoc events
                (jsToString (statRead (effectiveResult results idx))) with
            | some subs0 =>
              runSubs idx (jsToString (statRead (effectiveResult results idx))) subs0 0
            | none => ([], none)
           else ([], none)).2 = (none : Option JsVal) := by
        by_cases hs0 : (statRead (effectiveResult results idx)).truthy = true
        · rw [if_pos hs0]
          rcases hlk0 : lookupAssoc events
              (jsToString (statRead (effectiveResult results idx))) with _ | subs0
          · rfl
          · have hr := runSubs_all_none idx
              (jsToString (statRead (effectiveResult results idx))) subs0 0
              (hclean idx le_rfl hidx subs0 hlk0)
            simp [hr]
        · rw [if_neg hs0]
      obtain ⟨ih1, ih2⟩ := ih (idx + 1) i (by omega) (by simp at hlt ⊢; omega)
        (fun j hj1 hj2 => hclean j (by omega) hj2) hs subs pre after hlk hsplit hpre
      rcases hrun : (if (statRead (effectiveResult results idx)).truthy then
          match lookupAssoc events
              (jsToString (statRead (effectiveResult results idx))) with
          | some subs0 =>
            runSubs idx (jsToString (statRead (effectiveResult results idx))) subs0 0
          | none => ([], none)
         else ([], none)) with ⟨tr1, err⟩
      have herr : err = none := by rw [hrun] at hstep; exact hstep
      subst herr
      have harith : i - idx = (i - (idx + 1)) + 1 := by omega
      simp only [resolveQueueGo, hrun]
      constructor
      · simp only [ih1, harith, List.range_succ_eq_map, List.map_cons,
          List.map_map, Function.comp]
        have harith2 : ∀ j : Nat, idx + 1 + j = idx + (j + 1) := fun j => by omega
        simp [harith2]
      · simp [ih2]

/-- C9 counterexample: the claim says a subscriber throwing does not
prevent any record from settling with its own result.  With one record
whose result is `{stat:'error', result:1}` and one registered `'error'`
subscriber that throws `'boom'`, the record is rejected with `'boom'` —
neither resolved nor rejected with its own result object. -/
theorem c9_throwing_subscriber_counterexample :
    settleBatch [("error", [⟨some (.vStr "boom")⟩])] [⟨"m", .vObj [], 0⟩]
        [.vObj [("stat", .vStr "error"), ("result", .vNum 1)]] =
      [.rejected (.vStr "boom")] ∧
    Settlement.rejected (.vStr "boom") ≠
      .rejected (.vObj [("stat", .vStr "error"), ("result", .vNum 1)]) ∧
    Settlement.rejected (.vStr "boom") ≠
      .resolved (.vObj [("stat", .vStr "error"), ("result", .vNum 1)]) := by
  refine ⟨rfl, ?_, ?_⟩ <;> simp

/-- C9 amended: when `result.stat` matches a registered tag, every
subscriber for that tag is invoked with the record and result in
registration order, before that record's handle settles; when no invoked
subscriber throws, this does not affect settlement — each record settles
with its own demultiplexed result.  A subscriber that throws, however,
aborts the loop: records before it keep their own settlements, while the
record being processed and every later record of the batch are rejected
with the thrown value (via the chain's `.catch(rejectQueue)`). -/
theorem c9_subscribers_before_settle :
    (∀ (events : List (String × List Subscriber)) (queue : List QueuedRecord)
       (results : List JsVal),
      (∀ tag subs, lookupAssoc events tag = some subs →
        ∀ sub ∈ subs, sub.throws = none) →
      settleBatch events queue results =
        (List.range queue.length).map
          (fun i => demuxSettle (effectiveResult results i)) ∧
      batchTrace events queue results =
        (List.range queue.length).flatMap (fun i =>
          (List.range
              (if (statRead (effectiveResult results i)).truthy then
                ((lookupAssoc events
                    (jsToString (statRead (effectiveResult results i)))).getD
                  []).length
               else 0)).map
            (fun b => TraceEv.invoke i
              (jsToString (statRead (effectiveResult results i))) b) ++
          [TraceEv.settle i (demuxSettle (effectiveResult results i))])) ∧
    (∀ (events : List (String × List Subscriber)) (queue : List QueuedRecord)
       (results : List JsVal) (e : JsVal) (thrower : Subscriber) (i : Nat)
       (subs pre after : List Subscriber),
      thrower.throws = some e →
      i < queue.length →
      (∀ j, j < i → ∀ subs0,
        lookupAssoc events (jsToString (statRead (effectiveResult results j))) =
          some subs0 →
        ∀ sub ∈ subs0, sub.throws = none) →
      (statRead (effectiveResult results i)).truthy = true →
      lookupAssoc events (jsToString (statRead (effectiveResult results i))) =
        some subs →
      subs = pre ++ thrower :: after →
      (∀ sub ∈ pre, sub.throws = none) →
      settleBatch events queue results =
        (List.range i).map (fun j => demuxSettle (effectiveResult results j)) ++
        (queue.drop i).map (fun _ => Settlement.rejected e)) := by
  constructor
  · intro events queue results h
    have hgo := resolveQueueGo_all_none events results h queue 0
    constructor
    · simp only [settleBatch, hgo]
      simp
    · simp only [batchTrace, hgo]
      simp
  · intro events queue results e thrower i subs pre after hth hi hclean hs hlk hsplit hpre
    obtain ⟨h1, h2⟩ := resolveQueueGo_first_throw events results e thrower hth queue 0 i
      (Nat.zero_le i) (by omega) (fun j hj1 hj2 => hclean j hj2) hs subs pre after
      hlk hsplit hpre
    simp only [settleBatch]
    rcases hgo : resolveQueueGo events results 0 queue with ⟨tr, sts, err⟩
    rw [hgo] at h1 h2
    simp only at h1 h2
    subst h1
    subst h2
    simp

/-- C9 witness: a clean batch whose only record carries a registered
`'done'` stat invokes the subscriber once and then resolves the record
with its own result; and, for the throw case, a two-record batch whose
second record's `'error'` subscriber throws settles record 0 with its own
result and rejects record 1 with the thrown value. -/
theorem c9_subscribers_before_settle_witness :
    (settleBatch [("done", [⟨none⟩])] [⟨"m", .vObj [], 0⟩]
        [.vObj [("stat", .vStr "done")]] =
      [.rejected (.vObj [("stat", .vStr "done")])] ∧
     batchTrace [("done", [⟨none⟩])] [⟨"m", .vObj [], 0⟩]
        [.vObj [("stat", .vStr "done")]] =
      [.invoke 0 "done" 0,
       .settle 0 (.rejected (.vObj [("stat", .vStr "done")]))]) ∧
    settleBatch [("error", [⟨some (.vStr "boom")⟩])]
        [⟨"m", .vObj [], 0⟩, ⟨"n", .vObj [], 1⟩]
        [.vObj [("stat", .vStr "ok")], .vObj [("stat", .vStr "error")]] =
      [.resolved (.vObj [("stat", .vStr "ok")]), .rejected (.vStr "boom")] := by
  constructor
  · have h := c9_subscribers_before_settle.1 [("done", [⟨none⟩])]
      [⟨"m", .vObj [], 0⟩] [.vObj [("stat", .vStr "done")]]
      (by
        intro tag subs h sub hsub
        by_cases ht : "done" = tag
        · subst ht
          have h' : some [(⟨none⟩ : Subscriber)] = some subs := h
          cases h'
          simp at hsub
          subst hsub
          rfl
        · simp [lookupAssoc, ht] at h)
    obtain ⟨h1, h2⟩ := h
    exact ⟨by rw [h1]; rfl, by rw [h2]; rfl⟩
  · have h := c9_subscribers_before_settle.2 [("error", [⟨some (.vStr "boom")⟩])]
      [⟨"m", .vObj [], 0⟩, ⟨"n", .vObj [], 1⟩]
      [.vObj [("stat", .vStr "ok")], .vObj [("stat", .vStr "error")]]
      (.vStr "boom") ⟨some (.vStr "boom")⟩ 1 [⟨some (.vStr "boom")⟩] [] []
      rfl (by decide)
      (by
        intro j hj subs0 hl
        have hj0 : j = 0 := by omega
        subst hj0
        have hl' : (none : Option (List Subscriber)) = some subs0 := hl
        cases hl')
      rfl rfl rfl (by intro sub hsub; simp at hsub)
    rw [h]
    rfl

/-- Assignment preserves the key list, except for appending a fresh key. -/
theorem fieldKeys_setKey (fs : List (String × JsVal)) (k : String) (v : JsVal) :
    fieldKeys (setKey fs k v) =
      if fs.any (fun kv => kv.1 = k) then fieldKeys fs else fieldKeys fs ++ [k] := by
  unfold setKey fieldKeys
  by_cases h : fs.any (fun kv => kv.1 = k) = true
  · rw [if_pos h, if_pos h, List.map_map]
    apply List.map_congr_left
    intro kv _
    by_cases hk : kv.1 = k <;> simp [hk]
  · rw [if_neg h, if_neg h, List.map_append]
    rfl

/-- Assignment preserves key distinctness. -/
theorem fieldKeys_nodup_setKey (fs : List (String × JsVal)) (k : String)
    (v : JsVal) (h : (fieldKeys fs).Nodup) : (fieldKeys (setKey fs k v)).Nodup := by
  rw [fieldKeys_setKey]
  by_cases ha : fs.any (fun kv => kv.1 = k) = true
  · rw [if_pos ha]
    exact h
  · rw [if_neg ha]
    have hnot : k ∉ fieldKeys fs := by
      intro hmem
      obtain ⟨kv, hkv, hk⟩ := List.mem_map.mp hmem
      exact absurd (List.any_eq_true.mpr ⟨kv, hkv, by simp [hk]⟩) ha
    refine List.Nodup.append h (List.nodup_singleton k) ?_
    intro a ha1 ha2
    simp at ha2
    subst ha2
    exact hnot ha1

/-- The merge never introduces duplicate keys. -/
theorem mergeFields_obj_nodup (l : List (String × JsVal)) :
    ∀ fs fs', mergeFields (.vObj fs) l = .ok (.vObj fs') →
      (fieldKeys fs).Nodup → (fieldKeys fs').Nodup := by
  induction l with
  | nil =>
    intro fs fs' h hn
    simp only [mergeFields, Except.ok.injEq, JsVal.vObj.injEq] at h
    subst h
    exact hn
  | cons kv rest ih =>
    intro fs fs' h hn
    obtain ⟨p, v2⟩ := kv
    rw [mergeFields_obj_cons] at h
    exact ih _ _ h (fieldKeys_nodup_setKey _ _ _ hn)

/-- Unfolding lookup at a matching head. -/
theorem lookupJs_cons_self (p : String) (w : JsVal) (rest : List (String × JsVal)) :
    lookupJs ((p, w) :: rest) p = some w := by
  simp [lookupJs]

/-- Unfolding lookup past a non-matching head. -/
theorem lookupJs_cons_ne (p : String) (w : JsVal) (rest : List (String × JsVal))
    (k : String) (h : p ≠ k) : lookupJs ((p, w) :: rest) k = lookupJs rest k := by
  simp [lookupJs, h]

/-- The key list of a cons. -/
theorem fieldKeys_cons (p : String) (v : JsVal) (rest : List (String × JsVal)) :
    fieldKeys ((p, v) :: rest) = p :: fieldKeys rest := rfl

/-- A successful lookup is a member. -/
theorem lookupJs_mem (fs : List (String × JsVal)) (k : String) (v : JsVal)
    (h : lookupJs fs k = some v) : (k, v) ∈ fs := by
  induction fs with
  | nil => cases h
  | cons kv rest ih =>
    obtain ⟨p, w⟩ := kv
    by_cases hp : p = k
    · subst hp
      rw [lookupJs_cons_self] at h
      cases h
      simp
    · rw [lookupJs_cons_ne p w rest k hp] at h
      simp [ih h]

/-- A failed lookup means the key is absent. -/
theorem lookupJs_none_not_mem (fs : List (String × JsVal)) (k : String)
    (h : lookupJs fs k = none) : k ∉ fieldKeys fs := by
  induction fs with
  | nil => simp [fieldKeys]
  | cons kv rest ih =>
    obtain ⟨p, w⟩ := kv
    by_cases hp : p = k
    · subst hp
      rw [lookupJs_cons_self] at h
      cases h
    · rw [lookupJs_cons_ne p w rest k hp] at h
      rw [fieldKeys_cons]
      simp only [List.mem_cons]
      rintro (heq | hmem)
      · exact hp heq.symm
      · exact ih h hmem

/-- Fields without the key leave its per-key fold unchanged. -/
theorem mergeKeyTrace_not_mem (old : Option JsVal) (l : List (String × JsVal))
    (k : String) (h : k ∉ fieldKeys l) : mergeKeyTrace old l k = old := by
  induction l generalizing old with
  | nil => rfl
  | cons kv rest ih =>
    obtain ⟨p, v2⟩ := kv
    rw [fieldKeys_cons] at h
    simp only [List.mem_cons] at h
    push_neg at h
    unfold mergeKeyTrace
    simp only [List.foldl_cons, if_neg (fun (heq : p = k) => h.1 heq.symm)]
    exact ih old h.2

/-- With distinct keys, the per-key fold is a single application at the
looked-up binding. -/
theorem mergeKeyTrace_nodup_lookup (l : List (String × JsVal)) (k : String)
    (v : JsVal) :
    ∀ (old : Option JsVal), (fieldKeys l).Nodup → lookupJs l k = some v →
      mergeKeyTrace old l k = some (mergeValueAt old v) := by
  induction l with
  | nil => intro old _ hv; cases hv
  | cons kv rest ih =>
    intro old hnd hv
    obtain ⟨p, w⟩ := kv
    rw [fieldKeys_cons] at hnd
    by_cases hp : p = k
    · subst hp
      rw [lookupJs_cons_self] at hv
      cases hv
      have hnot : p ∉ fieldKeys rest := (List.nodup_cons.mp hnd).1
      unfold mergeKeyTrace
      simp only [List.foldl_cons, if_pos rfl]
      exact mergeKeyTrace_not_mem _ rest p hnot
    · rw [lookupJs_cons_ne p w rest k hp] at hv
      unfold mergeKeyTrace
      simp only [List.foldl_cons, if_neg hp]
      exact ih old (List.nodup_cons.mp hnd).2 hv

/-- Folding construction options over the `params` key: starting from a
params object that binds `track` (with distinct keys), any sequence of
`params` entries that are objects without a `track` key preserves the
`track` binding and key distinctness. -/
theorem trackKeyTrace (trackId : String) :
    ∀ (optsF : List (String × JsVal)) (g0 : List (String × JsVal)),
      lookupJs g0 "track" = some (.vStr trackId) → (fieldKeys g0).Nodup →
      (∀ v2, ("params", v2) ∈ optsF →
        ∃ pfc, v2 = .vObj pfc ∧ lookupJs pfc "track" = none) →
      ∃ g, mergeKeyTrace (some (.vObj g0)) optsF "params" = some (.vObj g) ∧
        lookupJs g "track" = some (.vStr trackId) ∧ (fieldKeys g).Nodup := by
  intro optsF
  induction optsF with
  | nil =>
    intro g0 hl hnd _
    exact ⟨g0, rfl, hl, hnd⟩
  | cons kv rest ih =>
    intro g0 hl hnd h1
    obtain ⟨p, v2⟩ := kv
    by_cases hp : p = "params"
    · subst hp
      obtain ⟨pfc, rfl, hpfc⟩ := h1 v2 (by simp)
      obtain ⟨g1, hg1, hg1k⟩ := mergeFields_obj pfc g0
      have hval : mergeValueAt (some (.vObj g0)) (.vObj pfc) = .vObj g1 := by
        have hg1' : mergeRecursive (.vObj g0) (.vObj pfc) = .ok (.vObj g1) := hg1
        simp [mergeValueAt, hg1']
      have htrack : lookupJs g1 "track" = some (.vStr trackId) := by
        rw [hg1k "track",
          mergeKeyTrace_not_mem _ pfc "track" (lookupJs_none_not_mem pfc "track" hpfc)]
        exact hl
      have hnd1 : (fieldKeys g1).Nodup := mergeFields_obj_nodup pfc g0 g1 hg1 hnd
      obtain ⟨g, hg, hgt, hgn⟩ := ih g1 htrack hnd1
        (fun v2 hmem => h1 v2 (by simp [hmem]))
      refine ⟨g, ?_, hgt, hgn⟩
      unfold mergeKeyTrace
      simp only [List.foldl_cons, if_pos rfl, hval]
      exact hg
    · obtain ⟨g, hg, hgt, hgn⟩ := ih g0 hl hnd
        (fun v2 hmem => h1 v2 (by simp [hmem]))
      refine ⟨g, ?_, hgt, hgn⟩
      unfold mergeKeyTrace
      simp only [List.foldl_cons, if_neg hp]
      exact hg

/-- A successfully encoded pair appears among the loop's outputs. -/
theorem mapExcept_mem {α β γ : Type} (f : α → Except γ β) :
    ∀ (l : List α) (outs : List β), mapExcept f l = .ok outs →
      ∀ x ∈ l, ∀ y, f x = .ok y → y ∈ outs := by
  intro l
  induction l with
  | nil => intro outs _ x hx; simp at hx
  | cons a rest ih =>
    intro outs houts x hx y hy
    rcases ha : f a with e | b
    · simp only [mapExcept, ha] at houts
      cases houts
    · simp only [mapExcept, ha] at houts
      rcases hrest : mapExcept f rest with e2 | bs
      · rw [hrest] at houts
        simp only [Except.map] at houts
        cases houts
      · rw [hrest] at houts
        simp only [Except.map, Except.ok.injEq] at houts
        subst houts
        rcases List.mem_cons.mp hx with heq | hmem
        · subst heq
          rw [ha] at hy
          cases hy
          simp
        · simp [ih bs hrest x hmem y hy]

/-- C10: construction merges the defaults — whose `params` carry an
auto-generated `track` identifier — with the caller's options, so as long
as the options' own `params` (if any) do not override `track`, the
instance params bind `track` to the generated identifier; every call
executed on such an instance whose own params do not override `track`
enqueues a record whose merged params still bind `track`, and its
serialized wire line contains the `track=<id>` pair.  (The spec documents
no such parameter; this is implicit behavior of the source.) -/
theorem c10_track_param (trackId : String) (optsF : List (String × JsVal))
    (h1 : ∀ v2, ("params", v2) ∈ optsF →
      ∃ pfc, v2 = .vObj pfc ∧ lookupJs pfc "track" = none) :
    ∃ instF g,
      mergeRecursive
        (.vObj [("query", .vObj []), ("params", .vObj [("track", .vStr trackId)]),
                ("timeout", .vNum 10000)])
        (.vObj optsF) = .ok (.vObj instF) ∧
      lookupJs instF "params" = some (.vObj g) ∧
      lookupJs g "track" = some (.vStr trackId) ∧
      (∀ (st : ApiState) (method : JsVal) (cf : List (String × JsVal)) (now : Int)
         (sweep : Bool) (s : String),
        st.optionsParams = g →
        methodString method = some s →
        lookupJs cf "track" = none →
        ∃ fs',
          (execute st method (.vObj cf) none now sweep).2.queue =
            st.queue ++ [⟨s, .vObj fs', st.nextHandle⟩] ∧
          lookupJs fs' "track" = some (.vStr trackId) ∧
          ∀ parts, stringifyCallParts ⟨s, fs'⟩ = .ok parts →
            ("track=" ++ encodeURIComponent trackId) ∈ parts) := by
  obtain ⟨instF, hinst, hinstk⟩ := mergeFields_obj optsF
    [("query", .vObj []), ("params", .vObj [("track", .vStr trackId)]),
     ("timeout", .vNum 10000)]
  have hi := hinstk "params"
  have hd : lookupJs
      [("query", JsVal.vObj []), ("params", JsVal.vObj [("track", JsVal.vStr trackId)]),
       ("timeout", JsVal.vNum 10000)] "params" =
      some (.vObj [("track", .vStr trackId)]) := by
    simp [lookupJs]
  rw [hd] at hi
  obtain ⟨g, hg, hgt, hgn⟩ := trackKeyTrace trackId optsF [("track", .vStr trackId)]
    (lookupJs_cons_self _ _ _) (by simp [fieldKeys]) h1
  refine ⟨instF, g, hinst, ?_, hgt, ?_⟩
  · rw [hi, hg]
  · intro st method cf now sweep s hopt hm hcf
    obtain ⟨bs, hb, hbk⟩ := mergeFields_obj g []
    obtain ⟨fs', hf, hfk⟩ := mergeFields_obj cf bs
    have hbtrack : lookupJs bs "track" = some (.vStr trackId) := by
      rw [hbk "track"]
      have : lookupJs ([] : List (String × JsVal)) "track" = none := rfl
      rw [this, mergeKeyTrace_nodup_lookup g "track" (.vStr trackId) none hgn hgt]
      rfl
    have hftrack : lookupJs fs' "track" = some (.vStr trackId) := by
      rw [hfk "track",
        mergeKeyTrace_not_mem _ cf "track" (lookupJs_none_not_mem cf "track" hcf)]
      exact hbtrack
    refine ⟨fs', ?_, hftrack, ?_⟩
    · have hb' : mergeRecursive (.vObj []) (.vObj st.optionsParams) =
          .ok (.vObj bs) := by
        rw [hopt]
        exact hb
      have hf' : mergeRecursive (.vObj bs) (.vObj cf) = .ok (.vObj fs') := hf
      have hstep : (do
          let base ← (Except.ok (JsVal.vObj bs) : Except Unit JsVal)
          mergeRecursive base (.vObj cf)) = mergeRecursive (.vObj bs) (.vObj cf) := rfl
      cases sweep <;>
        simp [execute, hm, cacheDirectiveTruthy, enqueueAndStore, JsVal.truthy,
          hb', hstep, hf']
    · intro parts hparts
      have hmemfs : ("track", JsVal.vStr trackId) ∈ fs' :=
        lookupJs_mem fs' "track" (.vStr trackId) hftrack
      have hmemfilter : ("track", JsVal.vStr trackId) ∈
          fs'.filter (fun kv => !kv.2.isNull) :=
        List.mem_filter.mpr ⟨hmemfs, by simp [JsVal.isNull]⟩
      have hpar : parameterize "track" (.vStr trackId) =
          .ok ("track=" ++ encodeURIComponent trackId) := rfl
      simp only [stringifyCallParts] at hparts
      rcases hmap : mapExcept (fun kv => parameterize kv.1 kv.2)
          (fs'.filter (fun kv => !kv.2.isNull)) with e | rest
      · rw [hmap] at hparts
        simp only [Except.map] at hparts
        cases hparts
      · rw [hmap] at hparts
        simp only [Except.map, Except.ok.injEq] at hparts
        subst hparts
        have := mapExcept_mem (fun kv => parameterize kv.1 kv.2)
          (fs'.filter (fun kv => !kv.2.isNull)) rest hmap
          ("track", JsVal.vStr trackId) hmemfilter
          ("track=" ++ encodeURIComponent trackId) hpar
        simp [this]

/-- C10 witness: the middleware-style construction options
`{params: {api_signature: ''}}` at a concrete track id. -/
theorem c10_track_param_witness :
    ∃ instF g,
      mergeRecursive
        (.vObj [("query", .vObj []), ("params", .vObj [("track", .vStr "t")]),
                ("timeout", .vNum 10000)])
        (.vObj [("params", .vObj [("api_signature", .vStr "")])]) =
        .ok (.vObj instF) ∧
      lookupJs instF "params" = some (.vObj g) ∧
      lookupJs g "track" = some (.vStr "t") ∧
      (∀ (st : ApiState) (method : JsVal) (cf : List (String × JsVal)) (now : Int)
         (sweep : Bool) (s : String),
        st.optionsParams = g →
        methodString method = some s →
        lookupJs cf "track" = none →
        ∃ fs',
          (execute st method (.vObj cf) none now sweep).2.queue =
            st.queue ++ [⟨s, .vObj fs', st.nextHandle⟩] ∧
          lookupJs fs' "track" = some (.vStr "t") ∧
          ∀ parts, stringifyCallParts ⟨s, fs'⟩ = .ok parts →
            ("track=" ++ encodeURIComponent "t") ∈ parts) :=
  c10_track_param "t" [("params", .vObj [("api_signature", .vStr "")])]
    (by
      intro v2 hmem
      simp at hmem
      exact ⟨[("api_signature", .vStr "")], hmem, rfl⟩)

/-- Unfolding `join('&')` over at least two elements. -/
theorem intercalate_amp_cons_cons (x y : String) (l : List String) :
    String.intercalate "&" (x :: y :: l) = x ++ "&" ++ String.intercalate "&" (y :: l) := by
  show String.intercalate.go x "&" (y :: l) = x ++ "&" ++ String.intercalate.go y "&" l
  induction l generalizing x y with
  | nil => rfl
  | cons a rest ih =>
    show String.intercalate.go (x ++ "&" ++ y) "&" (a :: rest) = _
    rw [ih (x ++ "&" ++ y) a, ih y a]
    simp [String.append_assoc]

/-- `join('&')` over a concatenation of two non-empty groups. -/
theorem intercalate_amp_append (l1 l2 : List String) (h1 : l1 ≠ []) (h2 : l2 ≠ []) :
    String.intercalate "&" (l1 ++ l2) =
      String.intercalate "&" l1 ++ "&" ++ String.intercalate "&" l2 := by
  induction l1 with
  | nil => exact absurd rfl h1
  | cons a rest ih =>
    cases rest with
    | nil =>
      cases l2 with
      | nil => exact absurd rfl h2
      | cons b l2' =>
        simp only [List.singleton_append]
        rw [intercalate_amp_cons_cons]
        rfl
    | cons r rest' =>
      simp only [List.cons_append]
      have ih' := ih (by simp)
      rw [List.cons_append] at ih'
      rw [intercalate_amp_cons_cons a r (rest' ++ l2), ih',
        intercalate_amp_cons_cons a r rest']
      simp [String.append_assoc]

/-- Joining per-group joins equals joining the flattened groups, when
every group is non-empty. -/
theorem intercalate_amp_flatten :
    ∀ (pairss : List (List String)), (∀ p ∈ pairss, p ≠ []) →
      String.intercalate "&" (pairss.map (String.intercalate "&")) =
      String.intercalate "&" pairss.flatten := by
  intro pairss
  induction pairss with
  | nil => intro _; rfl
  | cons p rest ih =>
    intro h
    have hp : p ≠ [] := h p (by simp)
    cases rest with
    | nil =>
      simp only [List.map_cons, List.map_nil, List.flatten_cons, List.flatten_nil,
        List.append_nil]
      rfl
    | cons r rest' =>
      have hrest : ∀ q ∈ r :: rest', q ≠ [] := fun q hq => h q (by simp [hq])
      have hflat : (r :: rest').flatten ≠ [] := by
        have hr : r ≠ [] := hrest r (by simp)
        cases r with
        | nil => exact absurd rfl hr
        | cons x xs => simp [List.flatten_cons]
      calc String.intercalate "&" ((p :: r :: rest').map (String.intercalate "&"))
          = String.intercalate "&" p ++ "&" ++
              String.intercalate "&" ((r :: rest').map (String.intercalate "&")) := by
            simp only [List.map_cons]
            exact intercalate_amp_cons_cons _ _ _
        _ = String.intercalate "&" p ++ "&" ++
              String.intercalate "&" (r :: rest').flatten := by
            rw [ih hrest]
        _ = String.intercalate "&" (p ++ (r :: rest').flatten) :=
            (intercalate_amp_append p (r :: rest').flatten hp hflat).symm
        _ = String.intercalate "&" (p :: r :: rest').flatten := by
            simp [List.flatten_cons]

/-- One encoded parameter (non-`null`, and neither an empty mapping nor an
empty array) agrees between the source encoder and the specification's
pair list: either both throw the same encoding error, or the source's
string is the `&`-join of the spec's non-empty pair list. -/
theorem param_pairs_agree (k : String) (v : JsVal) (hobj : v ≠ .vObj [])
    (harr : v ≠ .vArr []) (hnull : v ≠ .vNull) :
    (∃ e, parameterize k v = .error e ∧ specParamPairs k v = .error e) ∨
    (∃ pairs, pairs ≠ [] ∧ specParamPairs k v = .ok pairs ∧
      parameterize k v = .ok (String.intercalate "&" pairs)) := by
  cases v with
  | vStr s => exact Or.inr ⟨_, by simp, rfl, rfl⟩
  | vNum n => exact Or.inr ⟨_, by simp, rfl, rfl⟩
  | vBool b => exact Or.inr ⟨_, by simp, rfl, rfl⟩
  | vNull => exact absurd rfl hnull
  | vUndef =>
    refine Or.inr ⟨[encodeURIComponent k ++ "="], by simp, rfl, ?_⟩
    show Except.ok (encodeURIComponent k ++ "=" ++
      encodeURIComponent (jsToString (.vStr ""))) = _
    have h : encodeURIComponent (jsToString (.vStr "")) = "" := rfl
    rw [h, String.append_empty]
    rfl
  | vArr elems =>
    cases elems with
    | nil => exact absurd rfl harr
    | cons x xs => exact Or.inr ⟨_, by simp, rfl, rfl⟩
  | vObj fields =>
    cases fields with
    | nil => exact absurd rfl hobj
    | cons x xs => exact Or.inr ⟨_, by simp, rfl, rfl⟩
  | vFunc id => exact Or.inl ⟨_, rfl, rfl⟩

/-- The encoding loops agree over a whole parameter list. -/
theorem mapExcept_params_agree :
    ∀ (l : List (String × JsVal)),
      (∀ kv ∈ l, kv.2 ≠ .vObj [] ∧ kv.2 ≠ .vArr [] ∧ kv.2 ≠ .vNull) →
      (∃ e, mapExcept (fun kv => parameterize kv.1 kv.2) l = .error e ∧
        mapExcept (fun kv => specParamPairs kv.1 kv.2) l = .error e) ∨
      (∃ pairss, (∀ p ∈ pairss, p ≠ []) ∧
        mapExcept (fun kv => specParamPairs kv.1 kv.2) l = .ok pairss ∧
        mapExcept (fun kv => parameterize kv.1 kv.2) l =
          .ok (pairss.map (String.intercalate "&"))) := by
  intro l
  induction l with
  | nil => intro _; exact Or.inr ⟨[], by simp, rfl, rfl⟩
  | cons kv rest ih =>
    intro h
    obtain ⟨h1, h2, h3⟩ := h kv (by simp)
    rcases param_pairs_agree kv.1 kv.2 h1 h2 h3 with ⟨e, he1, he2⟩ |
      ⟨pairs, hne, hs, hp⟩
    · exact Or.inl ⟨e, by simp [mapExcept, he1], by simp [mapExcept, he2]⟩
    · rcases ih (fun kv2 hm => h kv2 (by simp [hm])) with ⟨e, he1, he2⟩ |
        ⟨pairss, hne2, hs2, hp2⟩
      · exact Or.inl ⟨e, by simp [mapExcept, hp, he1, Except.map],
          by simp [mapExcept, hs, he2, Except.map]⟩
      · refine Or.inr ⟨pairs :: pairss, ?_, ?_, ?_⟩
        · intro p hp0
          rcases List.mem_cons.mp hp0 with rfl | hm
          · exact hne
          · exact hne2 p hm
        · simp [mapExcept, hs, hs2, Except.map]
        · simp [mapExcept, hp, hp2, Except.map]

/-- One call line agrees between the source serializer and the spec's
pair-based line, given no empty-mapping/empty-array parameter values. -/
theorem stringifyCall_eq_spec (c : QueuedCall)
    (h : ∀ kv ∈ c.params, kv.2 ≠ .vObj [] ∧ kv.2 ≠ .vArr []) :
    stringifyCall c = specCallLine c := by
  have hfilter : ∀ kv ∈ c.params.filter (fun kv => !kv.2.isNull),
      kv.2 ≠ .vObj [] ∧ kv.2 ≠ .vArr [] ∧ kv.2 ≠ .vNull := by
    intro kv hm
    obtain ⟨hmem, hnn⟩ := List.mem_filter.mp hm
    obtain ⟨ho, ha⟩ := h kv hmem
    refine ⟨ho, ha, ?_⟩
    intro heq
    rw [heq] at hnn
    simp [JsVal.isNull] at hnn
  rcases mapExcept_params_agree (c.params.filter (fun kv => !kv.2.isNull)) hfilter
    with ⟨e, he1, he2⟩ | ⟨pairss, hne, hs, hp⟩
  · simp only [stringifyCall, stringifyCallParts, specCallLine, he1, he2, Except.map]
  · simp only [stringifyCall, stringifyCallParts, specCallLine, hs, hp, Except.map]
    have key : String.intercalate "&"
        (("method=" ++ encodeURIComponent c.method) :: pairss.map (String.intercalate "&")) =
        String.intercalate "&" (("method=" ++ encodeURIComponent c.method) :: pairss.flatten) := by
      have h1 : ("method=" ++ encodeURIComponent c.method) :: pairss.map (String.intercalate "&") =
          ([("method=" ++ encodeURIComponent c.method)] :: pairss).map (String.intercalate "&") :=
        rfl
      have h2 : ("method=" ++ encodeURIComponent c.method) :: pairss.flatten =
          ([("method=" ++ encodeURIComponent c.method)] :: pairss).flatten :=
        rfl
      rw [h1, h2]
      apply intercalate_amp_flatten
      intro p hp0
      rcases List.mem_cons.mp hp0 with rfl | hm
      · simp
      · exact hne p hm
    rw [key]

/-- The element loop only depends on the per-element function values. -/
theorem mapExcept_congr {α β γ : Type} (f g : α → Except γ β) :
    ∀ (l : List α), (∀ x ∈ l, f x = g x) → mapExcept f l = mapExcept g l := by
  intro l
  induction l with
  | nil => intro _; rfl
  | cons a rest ih =>
    intro h
    simp only [mapExcept, h a (by simp), ih (fun x hx => h x (by simp [hx]))]

/-- C8 counterexample: the claim describes each line as the method token
followed by the call's encoded parameter pairs joined by `&`.  A parameter
whose value is an empty mapping contributes zero pairs but still one
(empty) join element, so the source emits a dangling `&`: the claim's
line for `{method: 'm', params: {a: {}}}` is `method=m`, the code's line
is `method=m&`. -/
theorem c8_empty_mapping_dangling_amp_counterexample :
    stringifyQueue [⟨"m", [("a", .vObj [])]⟩] = .ok "\nmethod=m&\n" ∧
    specWireBody [⟨"m", [("a", .vObj [])]⟩] = .ok "\nmethod=m\n" ∧
    ("\nmethod=m&\n" : String) ≠ "\nmethod=m\n" := by
  refine ⟨rfl, rfl, ?_⟩
  decide

/-- C8 amended: for every queue of calls none of whose parameter values is
an empty mapping or an empty array, the serialized wire body equals a
leading newline, each call's line joined by newlines, and a trailing
newline, where each call's line is `method=` plus the percent-encoded
method followed by the call's encoded parameter pairs joined by `&`
(an empty mapping or array value would instead contribute an empty join
element, i.e. a dangling `&`). -/
theorem c8_wire_format (queue : List QueuedCall)
    (h : ∀ c ∈ queue, ∀ kv ∈ c.params, kv.2 ≠ .vObj [] ∧ kv.2 ≠ .vArr []) :
    stringifyQueue queue = specWireBody queue := by
  simp only [stringifyQueue, specWireBody]
  rw [mapExcept_congr stringifyCall specCallLine queue
    (fun c hc => stringifyCall_eq_spec c (h c hc))]

/-- C8 witness: a two-call batch with primitive, array, nested-mapping and
undefined parameter values serializes identically under both readings. -/
theorem c8_wire_format_witness :
    stringifyQueue
        [⟨"m", [("a", .vNum 1), ("b", .vObj [("x", .vStr "y")])]⟩,
         ⟨"n", [("c", .vArr [.vNum 2, .vNum 3]), ("d", .vUndef)]⟩] =
      specWireBody
        [⟨"m", [("a", .vNum 1), ("b", .vObj [("x", .vStr "y")])]⟩,
         ⟨"n", [("c", .vArr [.vNum 2, .vNum 3]), ("d", .vUndef)]⟩] :=
  c8_wire_format _
    (by
      intro c hc kv hkv
      rcases List.mem_cons.mp hc with rfl | hc2
      · rcases List.mem_cons.mp hkv with rfl | hkv2
        · constructor <;> intro heq <;> cases heq
        · simp at hkv2
          subst hkv2
          constructor <;> intro heq <;> cases heq
      · simp at hc2
        subst hc2
        rcases List.mem_cons.mp hkv with rfl | hkv2
        · constructor <;> intro heq <;> cases heq
        · simp at hkv2
          subst hkv2
          constructor <;> intro heq <;> cases heq)
